import Mathlib

set_option maxRecDepth 100000

/-!
A shallow embedding of `src/FastLZMA2Tool.cpp` (the fast-lzma2 command-line
driver) together with proofs about its streaming pump.

Bytes are modelled as `Nat`.  The external codec engine (libfast-lzma2) is not
part of the repository; following the specification it is treated as an
abstract stateful collaborator: a record of pure functions threaded through an
explicit engine-state type.  File streams are modelled as lists of bytes.

The pump loops of `compress_file` / `decompress_file` are `do { ... } while`
loops driven by the engine; they are embedded as fuel-indexed recursions
(`none` = fuel exhausted, `some` = the loop reached one of its real exits).
-/

/-- Input buffer, mirroring `FL2_inBuffer { src; size; pos }`.
`src` models the readable region of the C array: after a refill it holds
exactly the bytes the read placed there (so `src.length = size`); the engine
reads `src[pos..size)`. -/
structure FL2_inBuffer where
  src : List Nat
  size : Nat
  pos : Nat
deriving DecidableEq, Repr

/-- Output buffer, mirroring `FL2_outBuffer { dst; size; pos }`.
`size` is the fixed capacity of the C array.  `dst` models the array contents;
only the prefix `dst.take pos` is meaningful (it is what `ffwrite` consumes),
so an engine that produces `k` bytes replaces `dst` by
`dst.take pos ++ produced`. -/
structure FL2_outBuffer where
  dst : List Nat
  size : Nat
  pos : Nat
deriving DecidableEq, Repr

/-- Modelled from the spec: the engine's error-status predicate
`FL2_isError`.  As in the fast-lzma2 / zstd error convention, error codes are
the topmost `size_t` values, i.e. `code > (size_t)-maxCode`. -/
def FL2_ERROR_maxCode : Nat := 120

/-- Modelled from the spec: `FL2_isError` — a status is an error iff it lies
in the reserved top range of 64-bit values. -/
def FL2_isError (code : Nat) : Bool := 2 ^ 64 - FL2_ERROR_maxCode ≤ code

/-- Modelled from the spec: `FL2_getErrorName` returns the engine's
descriptive name for an error code; the name is represented by the code
itself (an injective tag is all the driver's behaviour depends on). -/
def FL2_getErrorName (code : Nat) : Nat := code

/-- The input file handle `fin`: the list of bytes not yet read. -/
structure InFile where
  data : List Nat
deriving DecidableEq, Repr

/-- The output file handle `fout`.  `good` models the stream's error state
(false = writes fail and are dropped); the driver never inspects it. -/
structure OutFile where
  data : List Nat
  good : Bool
deriving DecidableEq, Repr

/-- `ffread(buffer, size)`: reads up to `size` bytes from `fin`, returns the
advanced handle, the bytes read, and `gcount` (the number of bytes read). -/
def ffread (fin : InFile) (size : Nat) : InFile × List Nat × Nat :=
  let r := fin.data.take size
  (⟨fin.data.drop size⟩, r, r.length)

/-- `ffwrite(buffer, size)`: writes `buffer[0..size)` to `fout` and returns
`size` unconditionally — it never inspects the stream's error state. -/
def ffwrite (fout : OutFile) (buffer : List Nat) (size : Nat) : OutFile × Nat :=
  ({ fout with data := if fout.good then fout.data ++ buffer.take size else fout.data }, size)

/-- Modelled from the spec: the compression half of the codec-engine adapter
(`FL2_CStream` operations).  `σ` is the opaque engine state;
`compressStream st out in` returns the new state, the two mutated buffers and
the status; `endStream st out` is the finalization (flush) call. -/
structure FL2_CStream (σ : Type) where
  compressStream : σ → FL2_outBuffer → FL2_inBuffer → σ × FL2_outBuffer × FL2_inBuffer × Nat
  endStream : σ → FL2_outBuffer → σ × FL2_outBuffer × Nat

/-- Modelled from the spec: the decompression half of the adapter
(`FL2_DStream` operations). -/
structure FL2_DStream (σ : Type) where
  decompressStream : σ → FL2_outBuffer → FL2_inBuffer → σ × FL2_outBuffer × FL2_inBuffer × Nat

/-- Which adapter operation a recorded call used. -/
inductive CallKind where
  | compressStreamCall
  | endStreamCall
  | decompressStreamCall
deriving DecidableEq, Repr

/-- One recorded adapter call: the operation and the status it returned. -/
structure CallEv where
  kind : CallKind
  res : Nat
deriving DecidableEq, Repr

/-- The local state of `compress_file` (lines 64-106): engine handle, the two
file handles, both buffers, the two byte counters, plus an instrumentation
trace of the adapter calls made so far. -/
structure CompressState (σ : Type) where
  fcs : σ
  fin : InFile
  fout : OutFile
  in_buf : FL2_inBuffer
  out_buf : FL2_outBuffer
  in_size : Nat
  out_size : Nat
  calls : List CallEv
deriving DecidableEq, Repr

/-- The local state of `decompress_file` (lines 108-140). -/
structure DecompressState (σ : Type) where
  fds : σ
  fin : InFile
  fout : OutFile
  in_buf : FL2_inBuffer
  out_buf : FL2_outBuffer
  in_size : Nat
  out_size : Nat
  calls : List CallEv
deriving DecidableEq, Repr

/-- Initial `compress_file` state (lines 67-73): 8 KiB input buffer created
"fully consumed" (`pos = size = 8192`, contents indeterminate), 4 KiB output
buffer with `pos = 0`, both counters zero. -/
def initialCompressState (fcs : σ) (fin : InFile) (fout : OutFile) : CompressState σ :=
  { fcs := fcs, fin := fin, fout := fout,
    in_buf := { src := List.replicate 8192 0, size := 8192, pos := 8192 },
    out_buf := { dst := List.replicate 4096 0, size := 4096, pos := 0 },
    in_size := 0, out_size := 0, calls := [] }

/-- Initial `decompress_file` state (lines 111-117): buffer sizes swapped
(4 KiB input, 8 KiB output). -/
def initialDecompressState (fds : σ) (fin : InFile) (fout : OutFile) : DecompressState σ :=
  { fds := fds, fin := fin, fout := fout,
    in_buf := { src := List.replicate 4096 0, size := 4096, pos := 4096 },
    out_buf := { dst := List.replicate 8192 0, size := 8192, pos := 0 },
    in_size := 0, out_size := 0, calls := [] }

/-- Result of one execution of a loop body: `done` continues to the guard
check with the body's status, `fail` is the `goto error_out` exit. -/
inductive BodyResult (α : Type) where
  | done : α → Nat → BodyResult α
  | fail : α → Nat → BodyResult α
deriving DecidableEq, Repr

/-- How a loop finished: normal guard exit (with the last status) or the
`goto error_out` path (with the error status). -/
inductive LoopExit (α : Type) where
  | ok : α → Nat → LoopExit α
  | err : α → Nat → LoopExit α
deriving DecidableEq, Repr

/-- The refill step of `compress_file` (lines 75-79): when the input buffer is
fully consumed, read up to 8192 bytes, account them into `in_size`, and reset
`pos` to 0 with `size` = the byte count actually read. -/
def refillC (s : CompressState σ) : CompressState σ :=
  if s.in_buf.pos = s.in_buf.size then
    let r := ffread s.fin 8192
    { s with fin := r.1,
             in_buf := { src := r.2.1, size := r.2.2, pos := 0 },
             in_size := s.in_size + r.2.2 }
  else s

/-- One body of the `compress_file` main loop (lines 74-89): refill if needed,
call `FL2_compressStream`, bail out on error, otherwise write
`out_buf.pos` bytes to the sink, add them to `out_size` and reset `pos`. -/
def compressBody (C : FL2_CStream σ) (s0 : CompressState σ) : BodyResult (CompressState σ) :=
  let s := refillC s0
  let t := C.compressStream s.fcs s.out_buf s.in_buf
  let s1 : CompressState σ :=
    { s with fcs := t.1, out_buf := t.2.1, in_buf := t.2.2.1,
             calls := s.calls ++ [⟨CallKind.compressStreamCall, t.2.2.2⟩] }
  if FL2_isError t.2.2.2 then .fail s1 t.2.2.2
  else
    let w := ffwrite s1.fout s1.out_buf.dst s1.out_buf.pos
    .done { s1 with fout := w.1,
                    out_size := s1.out_size + s1.out_buf.pos,
                    out_buf := { s1.out_buf with pos := 0 } } t.2.2.2

/-- The `compress_file` main loop (`do { ... } while (in_buf.size)`,
lines 74-89), fuel-indexed: `none` means the fuel ran out before the loop
reached one of its exits. -/
def compressLoop (C : FL2_CStream σ) : Nat → CompressState σ → Option (LoopExit (CompressState σ))
  | 0, _ => none
  | fuel + 1, s =>
    match compressBody C s with
    | .fail s1 res => some (.err s1 res)
    | .done s1 res =>
      if s1.in_buf.size ≠ 0 then compressLoop C fuel s1 else some (.ok s1 res)

/-- One body of the `compress_file` finalization loop (lines 90-98): call
`FL2_endStream`, bail out on error, otherwise write `out_buf.pos` bytes from
`out_buf.dst` to the sink, add them to `out_size` and reset `pos`. -/
def endBody (C : FL2_CStream σ) (s : CompressState σ) : BodyResult (CompressState σ) :=
  let t := C.endStream s.fcs s.out_buf
  let s1 : CompressState σ :=
    { s with fcs := t.1, out_buf := t.2.1,
             calls := s.calls ++ [⟨CallKind.endStreamCall, t.2.2⟩] }
  if FL2_isError t.2.2 then .fail s1 t.2.2
  else
    let w := ffwrite s1.fout s1.out_buf.dst s1.out_buf.pos
    .done { s1 with fout := w.1,
                    out_size := s1.out_size + s1.out_buf.pos,
                    out_buf := { s1.out_buf with pos := 0 } } t.2.2

/-- The `compress_file` finalization loop (`do { ... } while (res)`,
lines 90-98), fuel-indexed. -/
def endLoop (C : FL2_CStream σ) : Nat → CompressState σ → Option (LoopExit (CompressState σ))
  | 0, _ => none
  | fuel + 1, s =>
    match endBody C s with
    | .fail s1 res => some (.err s1 res)
    | .done s1 res => if res ≠ 0 then endLoop C fuel s1 else some (.ok s1 res)

/-- The outcome of one `compress_file` / `decompress_file` invocation:
final local state, the function's return value (0 success, 1 error), and the
error name printed to standard error, if any. -/
structure RunOutcome (α : Type) where
  final : α
  ret : Nat
  stderrOut : Option Nat
deriving DecidableEq, Repr

/-- `compress_file` (lines 64-106): run the main loop, then the finalization
loop; on an engine error print `FL2_getErrorName` to stderr and return 1. -/
def compress_file (C : FL2_CStream σ) (fcs : σ) (fin : InFile) (fout : OutFile)
    (fuel1 fuel2 : Nat) : Option (RunOutcome (CompressState σ)) :=
  match compressLoop C fuel1 (initialCompressState fcs fin fout) with
  | none => none
  | some (.err s res) => some ⟨s, 1, some (FL2_getErrorName res)⟩
  | some (.ok s _) =>
    match endLoop C fuel2 s with
    | none => none
    | some (.err s1 res) => some ⟨s1, 1, some (FL2_getErrorName res)⟩
    | some (.ok s1 _) => some ⟨s1, 0, none⟩

/-- The refill step of `decompress_file` (lines 119-123): same as the
compression one but with the 4 KiB input buffer. -/
def refillD (s : DecompressState σ) : DecompressState σ :=
  if s.in_buf.pos = s.in_buf.size then
    let r := ffread s.fin 4096
    { s with fin := r.1,
             in_buf := { src := r.2.1, size := r.2.2, pos := 0 },
             in_size := s.in_size + r.2.2 }
  else s

/-- One body of the `decompress_file` loop (lines 118-131): refill if needed,
call `FL2_decompressStream`, bail out on error, otherwise write
`out_buf.pos` bytes from `out_buf.dst` to the sink and reset `pos`. -/
def decompressBody (D : FL2_DStream σ) (s0 : DecompressState σ) : BodyResult (DecompressState σ) :=
  let s := refillD s0
  let t := D.decompressStream s.fds s.out_buf s.in_buf
  let s1 : DecompressState σ :=
    { s with fds := t.1, out_buf := t.2.1, in_buf := t.2.2.1,
             calls := s.calls ++ [⟨CallKind.decompressStreamCall, t.2.2.2⟩] }
  if FL2_isError t.2.2.2 then .fail s1 t.2.2.2
  else
    let w := ffwrite s1.fout s1.out_buf.dst s1.out_buf.pos
    .done { s1 with fout := w.1,
                    out_size := s1.out_size + s1.out_buf.pos,
                    out_buf := { s1.out_buf with pos := 0 } } t.2.2.2

/-- The `decompress_file` loop (`do { ... } while (res && in_buf.size)`,
lines 118-131), fuel-indexed. -/
def decompressLoop (D : FL2_DStream σ) : Nat → DecompressState σ → Option (LoopExit (DecompressState σ))
  | 0, _ => none
  | fuel + 1, s =>
    match decompressBody D s with
    | .fail s1 res => some (.err s1 res)
    | .done s1 res =>
      if res ≠ 0 ∧ s1.in_buf.size ≠ 0 then decompressLoop D fuel s1 else some (.ok s1 res)

/-- `decompress_file` (lines 108-140): a single loop; there is no
finalization phase after it. -/
def decompress_file (D : FL2_DStream σ) (fds : σ) (fin : InFile) (fout : OutFile)
    (fuel : Nat) : Option (RunOutcome (DecompressState σ)) :=
  match decompressLoop D fuel (initialDecompressState fds fin fout) with
  | none => none
  | some (.err s res) => some ⟨s, 1, some (FL2_getErrorName res)⟩
  | some (.ok s _) => some ⟨s, 0, none⟩

/-- Modelled from the spec: the adapter contract a well-behaved compression
engine obeys on each call — it mutates only the `pos` markers within bounds
(`feed ... mutates both buffers' position fields`, spec section 4.1/4.4), never
rewrites the already-consumed input region, and keeps at least `pos` bytes of
meaningful data in the output array. -/
structure CStreamContract {σ : Type} (C : FL2_CStream σ) : Prop where
  feedInSrc : ∀ st ob ib, ((C.compressStream st ob ib).2.2.1).src = ib.src
  feedInSize : ∀ st ob ib, ((C.compressStream st ob ib).2.2.1).size = ib.size
  feedInPos : ∀ st ob ib, ib.pos ≤ ib.size →
    ib.pos ≤ ((C.compressStream st ob ib).2.2.1).pos ∧
      ((C.compressStream st ob ib).2.2.1).pos ≤ ib.size
  feedOutSize : ∀ st ob ib, ((C.compressStream st ob ib).2.1).size = ob.size
  feedOutPos : ∀ st ob ib, ob.pos ≤ ob.size → ((C.compressStream st ob ib).2.1).pos ≤ ob.size
  feedOutLen : ∀ st ob ib, ob.pos ≤ ob.dst.length →
    ((C.compressStream st ob ib).2.1).pos ≤ ((C.compressStream st ob ib).2.1).dst.length
  endOutSize : ∀ st ob, ((C.endStream st ob).2.1).size = ob.size
  endOutPos : ∀ st ob, ob.pos ≤ ob.size → ((C.endStream st ob).2.1).pos ≤ ob.size
  endOutLen : ∀ st ob, ob.pos ≤ ob.dst.length →
    ((C.endStream st ob).2.1).pos ≤ ((C.endStream st ob).2.1).dst.length

/-- Modelled from the spec: the adapter contract for a decompression engine. -/
structure DStreamContract {σ : Type} (D : FL2_DStream σ) : Prop where
  feedInSrc : ∀ st ob ib, ((D.decompressStream st ob ib).2.2.1).src = ib.src
  feedInSize : ∀ st ob ib, ((D.decompressStream st ob ib).2.2.1).size = ib.size
  feedInPos : ∀ st ob ib, ib.pos ≤ ib.size →
    ib.pos ≤ ((D.decompressStream st ob ib).2.2.1).pos ∧
      ((D.decompressStream st ob ib).2.2.1).pos ≤ ib.size
  feedOutSize : ∀ st ob ib, ((D.decompressStream st ob ib).2.1).size = ob.size
  feedOutPos : ∀ st ob ib, ob.pos ≤ ob.size → ((D.decompressStream st ob ib).2.1).pos ≤ ob.size
  feedOutLen : ∀ st ob ib, ob.pos ≤ ob.dst.length →
    ((D.decompressStream st ob ib).2.1).pos ≤ ((D.decompressStream st ob ib).2.1).dst.length

/-- The unread region `src[pos..size)` of an input buffer. -/
def FL2_inBuffer.avail (ib : FL2_inBuffer) : List Nat := (ib.src.take ib.size).drop ib.pos

/-- State of the modelled store codec's compression engine: the bytes
received so far, and — once `endStream` has been called — the part of the
container still to be flushed. -/
structure StoreCState where
  received : List Nat
  pending : Option (List Nat)
deriving DecidableEq, Repr

/-- Modelled from the spec: a concrete spec-conforming compression engine
(the library itself is external to the repository).  It stores the stream:
`compressStream` consumes all offered input into internal state and produces
nothing (the engine "may buffer data internally that must be explicitly
forced out", spec section 4.2); `endStream` flushes the container — a
one-element length header followed by the raw bytes — bounded by the output
buffer's free space, returning 0 exactly when nothing is left to flush. -/
def storeCStream : FL2_CStream StoreCState :=
  { compressStream := fun st ob ib =>
      (⟨st.received ++ ib.avail, st.pending⟩, ob, { ib with pos := ib.size }, 0),
    endStream := fun st ob =>
      let pending := match st.pending with
        | some p => p
        | none => st.received.length :: st.received
      let k := min (ob.size - ob.pos) pending.length
      (⟨st.received, some (pending.drop k)⟩,
       { ob with dst := ob.dst.take ob.pos ++ pending.take k, pos := ob.pos + k },
       if (pending.drop k).length = 0 then 0 else 1) }

/-- State of the modelled store codec's decompression engine: the header
element if already read, paired with the number of payload bytes still
expected once known. -/
structure StoreDState where
  hdr : Option Nat
  rem : Option Nat
deriving DecidableEq, Repr

/-- Modelled from the spec: the matching decompression engine for
`storeCStream`.  It reads the one-element length header, then copies payload
bytes from input to output bounded by the output buffer's free space and by
the count still expected, and returns 0 exactly when the whole payload has
been produced (completion "through the same status channel used for ordinary
progress", spec section 4.2). -/
def storeDStream : FL2_DStream StoreDState :=
  { decompressStream := fun st ob ib =>
      let a := ib.avail
      match st.hdr with
      | none =>
        match a with
        | [] => (st, ob, ib, 1)
        | n :: body =>
          let k := min (min body.length (ob.size - ob.pos)) n
          (⟨some n, some (n - k)⟩,
           { ob with dst := ob.dst.take ob.pos ++ body.take k, pos := ob.pos + k },
           { ib with pos := ib.pos + 1 + k },
           if n - k = 0 then 0 else 1)
      | some n =>
        let r := (st.rem).getD n
        let k := min (min a.length (ob.size - ob.pos)) r
        (⟨some n, some (r - k)⟩,
         { ob with dst := ob.dst.take ob.pos ++ a.take k, pos := ob.pos + k },
         { ib with pos := ib.pos + k },
         if r - k = 0 then 0 else 1) }

/-- One step of incremental run-length encoding: extend or flush the current
run.  The accumulator is (current run, flattened [count, value] pairs). -/
def rleStep (acc : Option (Nat × Nat) × List Nat) (b : Nat) : Option (Nat × Nat) × List Nat :=
  match acc.1 with
  | none => (some (b, 1), acc.2)
  | some (v, c) => if v = b then (some (v, c + 1), acc.2) else (some (b, 1), acc.2 ++ [c, v])

/-- State of the modelled run-length codec's compression engine. -/
structure RleCState where
  run : Option (Nat × Nat)
  encoded : List Nat
  pending : Option (List Nat)
deriving DecidableEq, Repr

/-- Modelled from the spec: a second spec-conforming compression engine, this
one actually compressing (run-length coding, container = flattened
[count, value] pairs).  Like `storeCStream` it buffers during the main loop
and flushes everything from `endStream`. -/
def rleCStream : FL2_CStream RleCState :=
  { compressStream := fun st ob ib =>
      let a := ib.avail.foldl rleStep (st.run, st.encoded)
      (⟨a.1, a.2, st.pending⟩, ob, { ib with pos := ib.size }, 0),
    endStream := fun st ob =>
      let pending := match st.pending with
        | some p => p
        | none => st.encoded ++ (match st.run with | some (v, c) => [c, v] | none => [])
      let k := min (ob.size - ob.pos) pending.length
      (⟨st.run, st.encoded, some (pending.drop k)⟩,
       { ob with dst := ob.dst.take ob.pos ++ pending.take k, pos := ob.pos + k },
       if (pending.drop k).length = 0 then 0 else 1) }

/-- Step of the run-length parser: elements alternate count, value. -/
def rleParse (acc : Option Nat × List (Nat × Nat)) (b : Nat) : Option Nat × List (Nat × Nat) :=
  match acc.1 with
  | none => (some b, acc.2)
  | some c => (none, acc.2 ++ [(c, b)])

/-- Emit up to `space` bytes from a queue of pending (count, value) runs.
Returns the bytes, their number, and the queue remainder. -/
def rleEmit : List (Nat × Nat) → Nat → List Nat × Nat × List (Nat × Nat)
  | [], _ => ([], 0, [])
  | (c, v) :: rest, space =>
    if c ≤ space then
      let r := rleEmit rest (space - c)
      (List.replicate c v ++ r.1, c + r.2.1, r.2.2)
    else (List.replicate space v, space, (c - space, v) :: rest)

/-- State of the modelled run-length codec's decompression engine: the
half-parsed pair, and the queue of decoded runs not yet emitted. -/
structure RleDState where
  parse : Option Nat
  queue : List (Nat × Nat)
deriving DecidableEq, Repr

/-- Modelled from the spec: the matching decompression engine for
`rleCStream`.  Each call consumes all offered input into the run queue (the
adapter "may be internally multi-threaded" and buffer, spec section 4.4),
emits as much decoded output as fits in the output buffer's free space, and
returns 0 exactly when nothing half-parsed or queued remains. -/
def rleDStream : FL2_DStream RleDState :=
  { decompressStream := fun st ob ib =>
      let p := ib.avail.foldl rleParse (st.parse, st.queue)
      let e := rleEmit p.2 (ob.size - ob.pos)
      (⟨p.1, e.2.2⟩,
       { ob with dst := ob.dst.take ob.pos ++ e.1, pos := ob.pos + e.2.1 },
       { ib with pos := ib.size },
       if p.1 = none ∧ e.2.2 = [] then 0 else 1) }

/-- Modelled from the spec: an adversarial but contract- and weak-progress-
conforming compression engine — every call consumes nothing and produces one
byte whenever the output buffer has free space.  Weak progress ("consume or
produce at least one byte") holds, yet the engine never consumes input. -/
def produceOnlyCStream : FL2_CStream Unit :=
  { compressStream := fun _ ob ib =>
      if ob.pos < ob.size then
        ((), { ob with dst := ob.dst.take ob.pos ++ [0], pos := ob.pos + 1 }, ib, 0)
      else ((), ob, ib, 0),
    endStream := fun _ ob => ((), ob, 0) }

/-- Modelled from the spec: a decompression engine that signals stream
completion on its very first call without consuming or producing anything —
the behaviour a conforming engine exhibits when the compressed stream ends
before the source does (e.g. trailing data after the container). -/
def instantDoneDStream : FL2_DStream Unit :=
  { decompressStream := fun _ ob ib => ((), ob, ib, 0) }

/-- Modelled from the spec: a compression engine whose feed call reports an
engine error (a code in the reserved error range) without touching the
buffers. -/
def failingCStream : FL2_CStream Unit :=
  { compressStream := fun _ ob ib => ((), ob, ib, 2 ^ 64 - 1),
    endStream := fun _ ob => ((), ob, 0) }

/-- Modelled from the spec: a decompression engine whose feed call reports an
engine error. -/
def failingDStream : FL2_DStream Unit :=
  { decompressStream := fun _ ob ib => ((), ob, ib, 2 ^ 64 - 1) }

/-- The fixed container suffix, `static const std::string postfix = ".lzma2"`
(line 240; `postfix` itself is not a usable Lean name). -/
def lzma2Suffix : List Char := ['.', 'l', 'z', 'm', 'a', '2']

/-- `std::string::find(pat)` (first occurrence, `none` = `npos`). -/
def strFind : List Char → List Char → Option Nat
  | [], pat => if pat.isPrefixOf ([] : List Char) then some 0 else none
  | h :: t, pat =>
    if pat.isPrefixOf (h :: t) then some 0 else (strFind t pat).map (· + 1)

/-- `std::equal(postfix.rbegin(), postfix.rend(), out_name.rbegin())`
(lines 249, 256): compare the last six characters against the suffix.  (For
strings shorter than the suffix the C++ walks out of range; the model takes
the comparison to fail, the only in-bounds reading.) -/
def endsWithLzma2 (s : List Char) : Bool := lzma2Suffix.reverse.isPrefixOf s.reverse

/-- Output-name resolution in `main` (lines 243-260).  Compression: unless
the name looks drive-absolute (`":\\"` or `":/"` found at index 1), prefix it
with the current directory and a backslash; then append `.lzma2` unless the
name already ends with it.  Decompression: strip one trailing `.lzma2` if
present. -/
def resolve_out_name (bCompress : Bool) (cwd out_name : List Char) : List Char :=
  if bCompress then
    let n :=
      if strFind out_name [':', '\\'] ≠ some 1 ∧ strFind out_name [':', '/'] ≠ some 1 then
        cwd ++ ['\\'] ++ out_name
      else out_name
    if !endsWithLzma2 n then n ++ lzma2Suffix else n
  else
    if endsWithLzma2 out_name then
      out_name.take (out_name.length - lzma2Suffix.length)
    else out_name

/-- Resource events of one process run, for the lifecycle model of `main`.
`staticDestroyFout` / `staticDestroyFin` are the closes performed by the
static-storage destructors of the global `fout` / `fin` when the process
exits (including via `exit(1)`). -/
inductive ResEv where
  | createCStream (ok : Bool)
  | createDStream (ok : Bool)
  | initCStream (res : Nat)
  | initDStream (res : Nat)
  | openInput (ok : Bool)
  | openOutput (ok : Bool)
  | runPump (ret : Nat)
  | flushOut
  | closeOut
  | closeIn
  | freeCStream
  | freeDStream
  | staticDestroyFout
  | staticDestroyFin
deriving DecidableEq, Repr

/-- Which of the externally decided steps of a run succeed: context
allocations, the two engine initializations and the two file opens. -/
structure World where
  createCOk : Bool
  createDOk : Bool
  initCRes : Nat
  initDRes : Nat
  openInOk : Bool
  openOutOk : Bool
deriving DecidableEq, Repr

/-- The closes run by the static destructors when the process exits. -/
def exitPathEvents : List ResEv := [.staticDestroyFout, .staticDestroyFin]

/-- `create_init_fl2_streams` (lines 155-172): allocate both contexts
(`exit_fail` on a null return), then `res = FL2_initCStream(...)`,
`if (!res) res = FL2_initDStream(...)`, and `exit(1)` if `FL2_isError(res)`.
Returns the events and `some exitCode` if the process exited. -/
def create_init_fl2_streams (w : World) : List ResEv × Option Nat :=
  if !w.createCOk then ([.createCStream false] ++ exitPathEvents, some 1)
  else if !w.createDOk then
    ([.createCStream true, .createDStream false] ++ exitPathEvents, some 1)
  else
    let r :=
      if w.initCRes = 0 then
        ([ResEv.initCStream w.initCRes, ResEv.initDStream w.initDRes], w.initDRes)
      else ([ResEv.initCStream w.initCRes], w.initCRes)
    if FL2_isError r.2 then
      ([.createCStream true, .createDStream true] ++ r.1 ++ exitPathEvents, some 1)
    else ([.createCStream true, .createDStream true] ++ r.1, none)

/-- `open_files` (lines 143-153): open the source (`exit_fail` on failure),
then the sink (`exit_fail` on failure). -/
def open_files (w : World) : List ResEv × Option Nat :=
  if !w.openInOk then ([.openInput false] ++ exitPathEvents, some 1)
  else if !w.openOutOk then
    ([.openInput true, .openOutput false] ++ exitPathEvents, some 1)
  else ([.openInput true, .openOutput true], none)

/-- The resource lifecycle of `main` (lines 262-289): create and initialize
the contexts, open the files, run the pump (whose return value `pumpRet`
abstracts `compress_file` / `decompress_file`), then flush and close both
files, free both contexts and return the pump's result; static destructors
run when the process exits on every path. -/
def main_run (w : World) (pumpRet : Nat) : List ResEv × Nat :=
  match create_init_fl2_streams w with
  | (evs, some code) => (evs, code)
  | (evs, none) =>
    match open_files w with
    | (evs2, some code) => (evs ++ evs2, code)
    | (evs2, none) =>
      (evs ++ evs2 ++
        [.runPump pumpRet, .flushOut, .closeOut, .closeIn, .freeCStream, .freeDStream] ++
        exitPathEvents, pumpRet)

/-- The claim-C1 round-trip property for a given engine pair: compressing a
source containing exactly `S` succeeds, decompressing the produced container
succeeds, and the final sink holds exactly `S`. -/
def RoundTrips {σc σd : Type} (C : FL2_CStream σc) (fcs : σc)
    (D : FL2_DStream σd) (fds : σd) (S : List Nat) : Prop :=
  ∃ f1 f2 g o d,
    compress_file C fcs ⟨S⟩ ⟨[], true⟩ f1 f2 = some o ∧ o.ret = 0 ∧
    decompress_file D fds ⟨o.final.fout.data⟩ ⟨[], true⟩ g = some d ∧ d.ret = 0 ∧
    d.final.fout.data = S

/-- The claim-C2 termination statement as written: for every contract- and
weak-progress-conforming, non-erroring engine and every source, the
compression main loop terminates. -/
def ClaimC2Statement : Prop :=
  ∀ (σ : Type) (C : FL2_CStream σ) (fcs : σ) (src : List Nat),
    CStreamContract C →
    (∀ st ob ib, ib.pos ≤ ib.size → ob.pos < ob.size →
      ib.pos < ((C.compressStream st ob ib).2.2.1).pos ∨
        ob.pos < ((C.compressStream st ob ib).2.1).pos) →
    (∀ st ob ib, ¬FL2_isError ((C.compressStream st ob ib).2.2.2)) →
    ∃ f r, compressLoop C f (initialCompressState fcs ⟨src⟩ ⟨[], true⟩) = some r

/-- The state a loop exit carries (both normal and error exits). -/
def LoopExit.state : LoopExit α → α
  | .ok s _ => s
  | .err s _ => s

/-- Everything `compress_file`'s state contains except the sink handle. -/
def pubCompress (s : CompressState σ) :
    σ × InFile × FL2_inBuffer × FL2_outBuffer × Nat × Nat × List CallEv :=
  (s.fcs, s.fin, s.in_buf, s.out_buf, s.in_size, s.out_size, s.calls)

/-- Everything `decompress_file`'s state contains except the sink handle. -/
def pubDecompress (s : DecompressState σ) :
    σ × InFile × FL2_inBuffer × FL2_outBuffer × Nat × Nat × List CallEv :=
  (s.fds, s.fin, s.in_buf, s.out_buf, s.in_size, s.out_size, s.calls)

/-- A compression outcome without its sink contents. -/
def pubOutcomeC (o : RunOutcome (CompressState σ)) :=
  (pubCompress o.final, o.ret, o.stderrOut)

/-- A decompression outcome without its sink contents. -/
def pubOutcomeD (o : RunOutcome (DecompressState σ)) :=
  (pubDecompress o.final, o.ret, o.stderrOut)

/-- The container bytes the store codec still has to flush: the pending list
once `endStream` has started, otherwise the full container (one length
element followed by the raw bytes). -/
def storePending (st : StoreCState) : List Nat :=
  match st.pending with
  | some q => q
  | none => st.received.length :: st.received

/-- The container bytes the run-length codec still has to flush: the pending
list once `endStream` has started, otherwise the flattened encoded runs
followed by the open run. -/
def rlePending (st : RleCState) : List Nat :=
  match st.pending with
  | some q => q
  | none => st.encoded ++ (match st.run with | some (v, c) => [c, v] | none => [])

/-- The claim-C8 buffer invariant for `compress_file`: `pos ≤ size ≤
capacity` for both buffers (capacities 8192 in, 4096 out). -/
def InvC (s : CompressState σ) : Prop :=
  s.in_buf.pos ≤ s.in_buf.size ∧ s.in_buf.size ≤ 8192 ∧
  s.out_buf.pos ≤ s.out_buf.size ∧ s.out_buf.size ≤ 4096

/-- The claim-C8 buffer invariant for `decompress_file` (capacities 4096 in,
8192 out). -/
def InvD (s : DecompressState σ) : Prop :=
  s.in_buf.pos ≤ s.in_buf.size ∧ s.in_buf.size ≤ 4096 ∧
  s.out_buf.pos ≤ s.out_buf.size ∧ s.out_buf.size ≤ 8192

/-- No recorded call returned an error status. -/
def ErrorFree (evs : List CallEv) : Prop :=
  ∀ ev ∈ evs, FL2_isError ev.res = false

/-- Every recorded call except possibly the final one returned a non-error
status. -/
def ErrorOnlyLast (evs : List CallEv) : Prop :=
  ∀ i (h : i < evs.length), i + 1 < evs.length → FL2_isError (evs.get ⟨i, h⟩).res = false

/-- Fuel monotonicity: a completed main-loop run is stable under more fuel. -/
theorem compressLoop_mono {σ} (C : FL2_CStream σ) :
    ∀ {f g : Nat} {s : CompressState σ} {e}, compressLoop C f s = some e → f ≤ g →
      compressLoop C g s = some e := by
  intro f
  induction f with
  | zero => intro g s e h; simp [compressLoop] at h
  | succ f ih =>
    intro g s e h hle
    obtain ⟨g1, rfl⟩ : ∃ g1, g = g1 + 1 := ⟨g - 1, by omega⟩
    rw [compressLoop] at h ⊢
    cases hb : compressBody C s with
    | fail s1 res => rw [hb] at h; exact h
    | done s1 res =>
      rw [hb] at h
      dsimp only at h ⊢
      by_cases hs : s1.in_buf.size ≠ 0
      · simp only [if_pos hs] at h ⊢; exact ih h (by omega)
      · simp only [if_neg hs] at h ⊢; exact h

/-- Fuel monotonicity for the finalization loop. -/
theorem endLoop_mono {σ} (C : FL2_CStream σ) :
    ∀ {f g : Nat} {s : CompressState σ} {e}, endLoop C f s = some e → f ≤ g →
      endLoop C g s = some e := by
  intro f
  induction f with
  | zero => intro g s e h; simp [endLoop] at h
  | succ f ih =>
    intro g s e h hle
    obtain ⟨g1, rfl⟩ : ∃ g1, g = g1 + 1 := ⟨g - 1, by omega⟩
    rw [endLoop] at h ⊢
    cases hb : endBody C s with
    | fail s1 res => rw [hb] at h; exact h
    | done s1 res =>
      rw [hb] at h
      dsimp only at h ⊢
      by_cases hs : res ≠ 0
      · simp only [if_pos hs] at h ⊢; exact ih h (by omega)
      · simp only [if_neg hs] at h ⊢; exact h

/-- Fuel monotonicity for the decompression loop. -/
theorem decompressLoop_mono {σ} (D : FL2_DStream σ) :
    ∀ {f g : Nat} {s : DecompressState σ} {e}, decompressLoop D f s = some e → f ≤ g →
      decompressLoop D g s = some e := by
  intro f
  induction f with
  | zero => intro g s e h; simp [decompressLoop] at h
  | succ f ih =>
    intro g s e h hle
    obtain ⟨g1, rfl⟩ : ∃ g1, g = g1 + 1 := ⟨g - 1, by omega⟩
    rw [decompressLoop] at h ⊢
    cases hb : decompressBody D s with
    | fail s1 res => rw [hb] at h; exact h
    | done s1 res =>
      rw [hb] at h
      dsimp only at h ⊢
      by_cases hs : res ≠ 0 ∧ s1.in_buf.size ≠ 0
      · simp only [if_pos hs] at h ⊢; exact ih h (by omega)
      · simp only [if_neg hs] at h ⊢; exact h

/-- Fuel monotonicity for a whole `compress_file` run. -/
theorem compress_file_mono {σ} (C : FL2_CStream σ) {fcs fin fout f1 f2 g1 g2 o} :
    compress_file C fcs fin fout f1 f2 = some o → f1 ≤ g1 → f2 ≤ g2 →
      compress_file C fcs fin fout g1 g2 = some o := by
  intro h h1 h2
  unfold compress_file at h ⊢
  cases hl : compressLoop C f1 (initialCompressState fcs fin fout) with
  | none => rw [hl] at h; exact absurd h (by simp)
  | some e =>
    rw [hl] at h
    rw [compressLoop_mono C hl h1]
    cases e with
    | err s res => exact h
    | ok s res =>
      dsimp only at h ⊢
      cases hl2 : endLoop C f2 s with
      | none => rw [hl2] at h; exact absurd h (by simp)
      | some e2 => rw [hl2] at h; rw [endLoop_mono C hl2 h2]; exact h

/-- Fuel monotonicity for a whole `decompress_file` run. -/
theorem decompress_file_mono {σ} (D : FL2_DStream σ) {fds fin fout f g o} :
    decompress_file D fds fin fout f = some o → f ≤ g →
      decompress_file D fds fin fout g = some o := by
  intro h h1
  unfold decompress_file at h ⊢
  cases hl : decompressLoop D f (initialDecompressState fds fin fout) with
  | none => rw [hl] at h; exact absurd h (by simp)
  | some e => rw [hl] at h; rw [decompressLoop_mono D hl h1]; exact h

/-- Appending the container suffix makes a name end with it. -/
theorem endsWithLzma2_append (n : List Char) : endsWithLzma2 (n ++ lzma2Suffix) = true := by
  unfold endsWithLzma2
  rw [List.reverse_append]
  exact List.isPrefixOf_iff_prefix.mpr ⟨n.reverse, rfl⟩

/-- The conditional append of `.lzma2` (line 249-252) always yields a
suffixed name. -/
theorem compressSuffixAux (m : List Char) :
    endsWithLzma2 (if !endsWithLzma2 m then m ++ lzma2Suffix else m) = true := by
  by_cases he : endsWithLzma2 m
  · simp [he]
  · simp [he, endsWithLzma2_append]

/-- Claim C6 (amended).  Compression: every resolved output path ends with
the fixed container suffix `.lzma2`.  Decompression strips exactly one copy
of the suffix, so the resolved path avoids the suffix only when the input
minus one suffix does not itself still end with it (the claim's unconditional
version fails, see the counterexample). -/
theorem claim_C6 :
    (∀ cwd name, endsWithLzma2 (resolve_out_name true cwd name) = true) ∧
    (∀ cwd name, endsWithLzma2 name = true →
      endsWithLzma2 (name.take (name.length - 6)) = false →
      resolve_out_name false cwd name = name.take (name.length - 6) ∧
      endsWithLzma2 (resolve_out_name false cwd name) = false) := by
  constructor
  · intro cwd name
    have h := compressSuffixAux
      (if strFind name [':', '\\'] ≠ some 1 ∧ strFind name [':', '/'] ≠ some 1 then
        cwd ++ ['\\'] ++ name else name)
    simpa [resolve_out_name] using h
  · intro cwd name h1 h2
    have hr : resolve_out_name false cwd name = name.take (name.length - 6) := by
      unfold resolve_out_name
      simp [h1]
      rfl
    exact ⟨hr, hr ▸ h2⟩

/-- Claim C6, counterexample to the decompression half as stated: the
suffixed input `a.lzma2.lzma2` resolves to `a.lzma2`, which still ends with
the container suffix. -/
theorem claim_C6_counterexample :
    endsWithLzma2 ['a', '.', 'l', 'z', 'm', 'a', '2', '.', 'l', 'z', 'm', 'a', '2'] = true ∧
    endsWithLzma2 (resolve_out_name false []
      ['a', '.', 'l', 'z', 'm', 'a', '2', '.', 'l', 'z', 'm', 'a', '2']) = true := by
  constructor <;> decide

/-- Claim C6, witness: the amended theorem applied to the input `a.lzma2`. -/
theorem claim_C6_witness :
    endsWithLzma2 ['a', '.', 'l', 'z', 'm', 'a', '2'] = true ∧
    endsWithLzma2 ((['a', '.', 'l', 'z', 'm', 'a', '2'] : List Char).take
      ((['a', '.', 'l', 'z', 'm', 'a', '2'] : List Char).length - 6)) = false ∧
    resolve_out_name false [] ['a', '.', 'l', 'z', 'm', 'a', '2'] =
      (['a', '.', 'l', 'z', 'm', 'a', '2'] : List Char).take
        ((['a', '.', 'l', 'z', 'm', 'a', '2'] : List Char).length - 6) ∧
    endsWithLzma2 (resolve_out_name false [] ['a', '.', 'l', 'z', 'm', 'a', '2']) = false := by
  refine ⟨by decide, by decide, ?_, ?_⟩
  · exact (claim_C6.2 [] ['a', '.', 'l', 'z', 'm', 'a', '2'] (by decide) (by decide)).1
  · exact (claim_C6.2 [] ['a', '.', 'l', 'z', 'm', 'a', '2'] (by decide) (by decide)).2

/-- Claim C9 (amended).  On every exit path the file handles get closed
before the process reports status (explicitly on the normal path, via the
global streams' static destructors on the `exit(1)` paths), and on every run
that reaches the pump both codec contexts are freed and the pump's return
value becomes the process exit code; but the early `exit_fail`/init-error
paths terminate without destroying already-created contexts (see the
counterexample). -/
theorem claim_C9 :
    ∀ (w : World) (pumpRet : Nat),
      ((ResEv.closeOut ∈ (main_run w pumpRet).1 ∨
        ResEv.staticDestroyFout ∈ (main_run w pumpRet).1) ∧
       (ResEv.closeIn ∈ (main_run w pumpRet).1 ∨
        ResEv.staticDestroyFin ∈ (main_run w pumpRet).1)) ∧
      (ResEv.runPump pumpRet ∈ (main_run w pumpRet).1 →
        ResEv.flushOut ∈ (main_run w pumpRet).1 ∧
        ResEv.closeOut ∈ (main_run w pumpRet).1 ∧
        ResEv.closeIn ∈ (main_run w pumpRet).1 ∧
        ResEv.freeCStream ∈ (main_run w pumpRet).1 ∧
        ResEv.freeDStream ∈ (main_run w pumpRet).1 ∧
        (main_run w pumpRet).2 = pumpRet) := by
  intro w pumpRet
  obtain ⟨cC, cD, iC, iD, oI, oO⟩ := w
  cases cC <;> cases cD <;> cases oI <;> cases oO <;>
    simp [main_run, create_init_fl2_streams, open_files, exitPathEvents] <;>
    split_ifs <;> simp_all

/-- Claim C9, counterexample: when the input file cannot be opened
(`exit_fail` in `open_files`, line 147), both contexts have already been
created and initialized, yet the process exits with status 1 without any
`FL2_freeCStream`/`FL2_freeDStream` call. -/
theorem claim_C9_counterexample :
    ResEv.createCStream true ∈ (main_run ⟨true, true, 0, 0, false, true⟩ 0).1 ∧
    ResEv.createDStream true ∈ (main_run ⟨true, true, 0, 0, false, true⟩ 0).1 ∧
    ¬ ResEv.freeCStream ∈ (main_run ⟨true, true, 0, 0, false, true⟩ 0).1 ∧
    ¬ ResEv.freeDStream ∈ (main_run ⟨true, true, 0, 0, false, true⟩ 0).1 ∧
    (main_run ⟨true, true, 0, 0, false, true⟩ 0).2 = 1 := by
  decide

/-- Claim C9, witness: the amended theorem applied to the all-successful
world with pump result 0. -/
theorem claim_C9_witness :
    ResEv.runPump 0 ∈ (main_run ⟨true, true, 0, 0, true, true⟩ 0).1 ∧
    ResEv.freeCStream ∈ (main_run ⟨true, true, 0, 0, true, true⟩ 0).1 ∧
    ResEv.freeDStream ∈ (main_run ⟨true, true, 0, 0, true, true⟩ 0).1 ∧
    (main_run ⟨true, true, 0, 0, true, true⟩ 0).2 = 0 := by
  have h := (claim_C9 ⟨true, true, 0, 0, true, true⟩ 0).2 (by decide)
  exact ⟨by decide, h.2.2.2.1, h.2.2.2.2.1, h.2.2.2.2.2⟩

/-- Two compression states equal except for the sink have equal
non-sink components. -/
theorem pubCompress_fields {σ} {s t : CompressState σ} (h : pubCompress s = pubCompress t) :
    s.fcs = t.fcs ∧ s.fin = t.fin ∧ s.in_buf = t.in_buf ∧ s.out_buf = t.out_buf ∧
    s.in_size = t.in_size ∧ s.out_size = t.out_size ∧ s.calls = t.calls := by
  cases s; cases t
  simpa [pubCompress] using h

/-- The compression loop body never reads the sink: states that agree on
everything but the sink step to states that agree on everything but the
sink, with the same branch and status. -/
theorem compressBody_pub {σ} (C : FL2_CStream σ) (s t : CompressState σ)
    (h : pubCompress s = pubCompress t) :
    (match compressBody C s, compressBody C t with
     | .done a ra, .done b rb => pubCompress a = pubCompress b ∧ ra = rb
     | .fail a ra, .fail b rb => pubCompress a = pubCompress b ∧ ra = rb
     | _, _ => False) := by
  obtain ⟨h1, h2, h3, h4, h5, h6, h7⟩ := pubCompress_fields h
  cases s; cases t
  simp only at h1 h2 h3 h4 h5 h6 h7
  subst h1 h2 h3 h4 h5 h6 h7
  unfold compressBody refillC ffwrite
  dsimp only
  split_ifs <;> simp [pubCompress]

/-- The finalization loop body never reads the sink. -/
theorem endBody_pub {σ} (C : FL2_CStream σ) (s t : CompressState σ)
    (h : pubCompress s = pubCompress t) :
    (match endBody C s, endBody C t with
     | .done a ra, .done b rb => pubCompress a = pubCompress b ∧ ra = rb
     | .fail a ra, .fail b rb => pubCompress a = pubCompress b ∧ ra = rb
     | _, _ => False) := by
  obtain ⟨h1, h2, h3, h4, h5, h6, h7⟩ := pubCompress_fields h
  cases s; cases t
  simp only at h1 h2 h3 h4 h5 h6 h7
  subst h1 h2 h3 h4 h5 h6 h7
  unfold endBody ffwrite
  dsimp only
  split_ifs <;> simp [pubCompress]

/-- Two decompression states equal except for the sink have equal
non-sink components. -/
theorem pubDecompress_fields {σ} {s t : DecompressState σ}
    (h : pubDecompress s = pubDecompress t) :
    s.fds = t.fds ∧ s.fin = t.fin ∧ s.in_buf = t.in_buf ∧ s.out_buf = t.out_buf ∧
    s.in_size = t.in_size ∧ s.out_size = t.out_size ∧ s.calls = t.calls := by
  cases s; cases t
  simpa [pubDecompress] using h

/-- The decompression loop body never reads the sink. -/
theorem decompressBody_pub {σ} (D : FL2_DStream σ) (s t : DecompressState σ)
    (h : pubDecompress s = pubDecompress t) :
    (match decompressBody D s, decompressBody D t with
     | .done a ra, .done b rb => pubDecompress a = pubDecompress b ∧ ra = rb
     | .fail a ra, .fail b rb => pubDecompress a = pubDecompress b ∧ ra = rb
     | _, _ => False) := by
  obtain ⟨h1, h2, h3, h4, h5, h6, h7⟩ := pubDecompress_fields h
  cases s; cases t
  simp only at h1 h2 h3 h4 h5 h6 h7
  subst h1 h2 h3 h4 h5 h6 h7
  unfold decompressBody refillD ffwrite
  dsimp only
  split_ifs <;> simp [pubDecompress]

/-- The compression main loop never reads the sink. -/
theorem compressLoop_pub {σ} (C : FL2_CStream σ) :
    ∀ f (s t : CompressState σ), pubCompress s = pubCompress t →
      (match compressLoop C f s, compressLoop C f t with
       | none, none => True
       | some (.ok a ra), some (.ok b rb) => pubCompress a = pubCompress b ∧ ra = rb
       | some (.err a ra), some (.err b rb) => pubCompress a = pubCompress b ∧ ra = rb
       | _, _ => False) := by
  intro f
  induction f with
  | zero => intro s t h; simp [compressLoop]
  | succ f ih =>
    intro s t h
    have hb := compressBody_pub C s t h
    rw [compressLoop, compressLoop]
    cases hs : compressBody C s with
    | fail a ra =>
      rw [hs] at hb
      cases ht : compressBody C t with
      | fail b rb => rw [ht] at hb; exact hb
      | done b rb => rw [ht] at hb; exact hb.elim
    | done a ra =>
      rw [hs] at hb
      cases ht : compressBody C t with
      | fail b rb => rw [ht] at hb; exact hb.elim
      | done b rb =>
        rw [ht] at hb
        obtain ⟨hab, rab⟩ := hb
        have hbuf : a.in_buf = b.in_buf := (pubCompress_fields hab).2.2.1
        dsimp only
        by_cases hg : a.in_buf.size ≠ 0
        · rw [if_pos hg, if_pos (hbuf ▸ hg)]
          exact ih a b hab
        · rw [if_neg hg, if_neg (hbuf ▸ hg)]
          simp [hab, rab]

/-- The finalization loop never reads the sink. -/
theorem endLoop_pub {σ} (C : FL2_CStream σ) :
    ∀ f (s t : CompressState σ), pubCompress s = pubCompress t →
      (match endLoop C f s, endLoop C f t with
       | none, none => True
       | some (.ok a ra), some (.ok b rb) => pubCompress a = pubCompress b ∧ ra = rb
       | some (.err a ra), some (.err b rb) => pubCompress a = pubCompress b ∧ ra = rb
       | _, _ => False) := by
  intro f
  induction f with
  | zero => intro s t h; simp [endLoop]
  | succ f ih =>
    intro s t h
    have hb := endBody_pub C s t h
    rw [endLoop, endLoop]
    cases hs : endBody C s with
    | fail a ra =>
      rw [hs] at hb
      cases ht : endBody C t with
      | fail b rb => rw [ht] at hb; exact hb
      | done b rb => rw [ht] at hb; exact hb.elim
    | done a ra =>
      rw [hs] at hb
      cases ht : endBody C t with
      | fail b rb => rw [ht] at hb; exact hb.elim
      | done b rb =>
        rw [ht] at hb
        obtain ⟨hab, rab⟩ := hb
        dsimp only
        by_cases hg : ra ≠ 0
        · rw [if_pos hg, if_pos (rab ▸ hg)]
          exact ih a b hab
        · rw [if_neg hg, if_neg (rab ▸ hg)]
          simp [hab, rab]

/-- The decompression loop never reads the sink. -/
theorem decompressLoop_pub {σ} (D : FL2_DStream σ) :
    ∀ f (s t : DecompressState σ), pubDecompress s = pubDecompress t →
      (match decompressLoop D f s, decompressLoop D f t with
       | none, none => True
       | some (.ok a ra), some (.ok b rb) => pubDecompress a = pubDecompress b ∧ ra = rb
       | some (.err a ra), some (.err b rb) => pubDecompress a = pubDecompress b ∧ ra = rb
       | _, _ => False) := by
  intro f
  induction f with
  | zero => intro s t h; simp [decompressLoop]
  | succ f ih =>
    intro s t h
    have hb := decompressBody_pub D s t h
    rw [decompressLoop, decompressLoop]
    cases hs : decompressBody D s with
    | fail a ra =>
      rw [hs] at hb
      cases ht : decompressBody D t with
      | fail b rb => rw [ht] at hb; exact hb
      | done b rb => rw [ht] at hb; exact hb.elim
    | done a ra =>
      rw [hs] at hb
      cases ht : decompressBody D t with
      | fail b rb => rw [ht] at hb; exact hb.elim
      | done b rb =>
        rw [ht] at hb
        obtain ⟨hab, rab⟩ := hb
        have hbuf : a.in_buf = b.in_buf := (pubDecompress_fields hab).2.2.1
        dsimp only
        by_cases hg : ra ≠ 0 ∧ a.in_buf.size ≠ 0
        · rw [if_pos hg, if_pos (by rw [← rab, ← hbuf]; exact hg)]
          exact ih a b hab
        · rw [if_neg hg, if_neg (by rw [← rab, ← hbuf]; exact hg)]
          simp [hab, rab]

/-- Claim C10 (confirmed): `ffwrite` reports the full requested byte count
unconditionally, and neither pump direction ever reads the sink's state —
the run's return value, stderr output, byte counters and call trace are
identical no matter what the sink contains or whether its writes fail, so a
run with a failing sink still reports success and full byte counts. -/
theorem claim_C10 :
    (∀ fout buffer size, (ffwrite fout buffer size).2 = size) ∧
    (∀ (σ : Type) (C : FL2_CStream σ) (fcs : σ) (fin : InFile) (d1 : List Nat) (g1 : Bool)
        (d2 : List Nat) (g2 : Bool) (f1 f2 : Nat),
      (compress_file C fcs fin ⟨d1, g1⟩ f1 f2).map pubOutcomeC =
        (compress_file C fcs fin ⟨d2, g2⟩ f1 f2).map pubOutcomeC) ∧
    (∀ (σ : Type) (D : FL2_DStream σ) (fds : σ) (fin : InFile) (d1 : List Nat) (g1 : Bool)
        (d2 : List Nat) (g2 : Bool) (f : Nat),
      (decompress_file D fds fin ⟨d1, g1⟩ f).map pubOutcomeD =
        (decompress_file D fds fin ⟨d2, g2⟩ f).map pubOutcomeD) := by
  refine ⟨fun _ _ _ => rfl, ?_, ?_⟩
  · intro σ C fcs fin d1 g1 d2 g2 f1 f2
    have h := compressLoop_pub C f1 (initialCompressState fcs fin ⟨d1, g1⟩)
      (initialCompressState fcs fin ⟨d2, g2⟩) rfl
    unfold compress_file
    cases hs : compressLoop C f1 (initialCompressState fcs fin ⟨d1, g1⟩) with
    | none =>
      rw [hs] at h
      cases ht : compressLoop C f1 (initialCompressState fcs fin ⟨d2, g2⟩) with
      | none => rfl
      | some e => rw [ht] at h; cases e <;> exact h.elim
    | some e =>
      rw [hs] at h
      cases ht : compressLoop C f1 (initialCompressState fcs fin ⟨d2, g2⟩) with
      | none => cases e <;> (rw [ht] at h; exact h.elim)
      | some e2 =>
        rw [ht] at h
        cases e with
        | err a ra =>
          cases e2 with
          | err b rb =>
            obtain ⟨hab, rab⟩ := h
            simp [pubOutcomeC, hab, rab]
          | ok b rb => exact h.elim
        | ok a ra =>
          cases e2 with
          | err b rb => exact h.elim
          | ok b rb =>
            obtain ⟨hab, rab⟩ := h
            dsimp only
            have h2 := endLoop_pub C f2 a b hab
            cases hu : endLoop C f2 a with
            | none =>
              rw [hu] at h2
              cases hv : endLoop C f2 b with
              | none => rfl
              | some e3 => rw [hv] at h2; cases e3 <;> exact h2.elim
            | some e3 =>
              rw [hu] at h2
              cases hv : endLoop C f2 b with
              | none => cases e3 <;> (rw [hv] at h2; exact h2.elim)
              | some e4 =>
                rw [hv] at h2
                cases e3 with
                | err a1 ra1 =>
                  cases e4 with
                  | err b1 rb1 =>
                    obtain ⟨hab1, rab1⟩ := h2
                    simp [pubOutcomeC, hab1, rab1]
                  | ok b1 rb1 => exact h2.elim
                | ok a1 ra1 =>
                  cases e4 with
                  | err b1 rb1 => exact h2.elim
                  | ok b1 rb1 =>
                    obtain ⟨hab1, rab1⟩ := h2
                    simp [pubOutcomeC, hab1, rab1]
  · intro σ D fds fin d1 g1 d2 g2 f
    have h := decompressLoop_pub D f (initialDecompressState fds fin ⟨d1, g1⟩)
      (initialDecompressState fds fin ⟨d2, g2⟩) rfl
    unfold decompress_file
    cases hs : decompressLoop D f (initialDecompressState fds fin ⟨d1, g1⟩) with
    | none =>
      rw [hs] at h
      cases ht : decompressLoop D f (initialDecompressState fds fin ⟨d2, g2⟩) with
      | none => rfl
      | some e => rw [ht] at h; cases e <;> exact h.elim
    | some e =>
      rw [hs] at h
      cases ht : decompressLoop D f (initialDecompressState fds fin ⟨d2, g2⟩) with
      | none => cases e <;> (rw [ht] at h; exact h.elim)
      | some e2 =>
        rw [ht] at h
        cases e with
        | err a ra =>
          cases e2 with
          | err b rb =>
            obtain ⟨hab, rab⟩ := h
            simp [pubOutcomeD, hab, rab]
          | ok b rb => exact h.elim
        | ok a ra =>
          cases e2 with
          | err b rb => exact h.elim
          | ok b rb =>
            obtain ⟨hab, rab⟩ := h
            simp [pubOutcomeD, hab, rab]

/-- What the decompression refill step does in each case. -/
theorem refillD_spec {σ} (s : DecompressState σ) :
    (s.in_buf.pos = s.in_buf.size →
      refillD s = { s with fin := ⟨s.fin.data.drop 4096⟩,
                           in_buf := { src := s.fin.data.take 4096,
                                       size := (s.fin.data.take 4096).length, pos := 0 },
                           in_size := s.in_size + (s.fin.data.take 4096).length }) ∧
    (s.in_buf.pos ≠ s.in_buf.size → refillD s = s) := by
  constructor <;> intro h <;> simp [refillD, ffread, h]

/-- What the compression refill step does in each case. -/
theorem refillC_spec {σ} (s : CompressState σ) :
    (s.in_buf.pos = s.in_buf.size →
      refillC s = { s with fin := ⟨s.fin.data.drop 8192⟩,
                           in_buf := { src := s.fin.data.take 8192,
                                       size := (s.fin.data.take 8192).length, pos := 0 },
                           in_size := s.in_size + (s.fin.data.take 8192).length }) ∧
    (s.in_buf.pos ≠ s.in_buf.size → refillC s = s) := by
  constructor <;> intro h <;> simp [refillC, ffread, h]

/-- Full characterization of a non-error execution of the decompression loop
body in terms of the refilled state and the engine call made on it. -/
theorem decompressBody_done_spec {σ} {D : FL2_DStream σ} {s s1 : DecompressState σ} {res}
    (h : decompressBody D s = .done s1 res) :
    FL2_isError res = false ∧
    res = (D.decompressStream (refillD s).fds (refillD s).out_buf (refillD s).in_buf).2.2.2 ∧
    s1.fds = (D.decompressStream (refillD s).fds (refillD s).out_buf (refillD s).in_buf).1 ∧
    s1.in_buf = (D.decompressStream (refillD s).fds (refillD s).out_buf (refillD s).in_buf).2.2.1 ∧
    s1.out_buf = { (D.decompressStream (refillD s).fds (refillD s).out_buf (refillD s).in_buf).2.1
                   with pos := 0 } ∧
    s1.fout = (ffwrite (refillD s).fout
        ((D.decompressStream (refillD s).fds (refillD s).out_buf (refillD s).in_buf).2.1).dst
        ((D.decompressStream (refillD s).fds (refillD s).out_buf (refillD s).in_buf).2.1).pos).1 ∧
    s1.in_size = (refillD s).in_size ∧
    s1.out_size = (refillD s).out_size +
      ((D.decompressStream (refillD s).fds (refillD s).out_buf (refillD s).in_buf).2.1).pos ∧
    s1.fin = (refillD s).fin ∧
    s1.calls = (refillD s).calls ++ [⟨CallKind.decompressStreamCall, res⟩] := by
  unfold decompressBody at h
  dsimp only at h
  split at h
  · exact absurd h (by simp)
  · rename_i he
    injection h with h1 h2
    subst h1 h2
    refine ⟨by simpa using he, rfl, rfl, rfl, rfl, rfl, rfl, rfl, rfl, rfl⟩

/-- Full characterization of the `goto error_out` execution of the
decompression loop body. -/
theorem decompressBody_fail_spec {σ} {D : FL2_DStream σ} {s s1 : DecompressState σ} {res}
    (h : decompressBody D s = .fail s1 res) :
    FL2_isError res = true ∧
    res = (D.decompressStream (refillD s).fds (refillD s).out_buf (refillD s).in_buf).2.2.2 ∧
    s1.fout = (refillD s).fout ∧
    s1.out_size = (refillD s).out_size ∧
    s1.fin = (refillD s).fin ∧
    s1.in_size = (refillD s).in_size ∧
    s1.calls = (refillD s).calls ++ [⟨CallKind.decompressStreamCall, res⟩] := by
  unfold decompressBody at h
  dsimp only at h
  split at h
  · rename_i he
    injection h with h1 h2
    subst h1 h2
    exact ⟨he, rfl, rfl, rfl, rfl, rfl, rfl⟩
  · exact absurd h (by simp)

/-- Full characterization of a non-error execution of the compression main
loop body. -/
theorem compressBody_done_spec {σ} {C : FL2_CStream σ} {s s1 : CompressState σ} {res}
    (h : compressBody C s = .done s1 res) :
    FL2_isError res = false ∧
    res = (C.compressStream (refillC s).fcs (refillC s).out_buf (refillC s).in_buf).2.2.2 ∧
    s1.fcs = (C.compressStream (refillC s).fcs (refillC s).out_buf (refillC s).in_buf).1 ∧
    s1.in_buf = (C.compressStream (refillC s).fcs (refillC s).out_buf (refillC s).in_buf).2.2.1 ∧
    s1.out_buf = { (C.compressStream (refillC s).fcs (refillC s).out_buf (refillC s).in_buf).2.1
                   with pos := 0 } ∧
    s1.fout = (ffwrite (refillC s).fout
        ((C.compressStream (refillC s).fcs (refillC s).out_buf (refillC s).in_buf).2.1).dst
        ((C.compressStream (refillC s).fcs (refillC s).out_buf (refillC s).in_buf).2.1).pos).1 ∧
    s1.in_size = (refillC s).in_size ∧
    s1.out_size = (refillC s).out_size +
      ((C.compressStream (refillC s).fcs (refillC s).out_buf (refillC s).in_buf).2.1).pos ∧
    s1.fin = (refillC s).fin ∧
    s1.calls = (refillC s).calls ++ [⟨CallKind.compressStreamCall, res⟩] := by
  unfold compressBody at h
  dsimp only at h
  split at h
  · exact absurd h (by simp)
  · rename_i he
    injection h with h1 h2
    subst h1 h2
    refine ⟨by simpa using he, rfl, rfl, rfl, rfl, rfl, rfl, rfl, rfl, rfl⟩

/-- Full characterization of the `goto error_out` execution of the
compression main loop body. -/
theorem compressBody_fail_spec {σ} {C : FL2_CStream σ} {s s1 : CompressState σ} {res}
    (h : compressBody C s = .fail s1 res) :
    FL2_isError res = true ∧
    res = (C.compressStream (refillC s).fcs (refillC s).out_buf (refillC s).in_buf).2.2.2 ∧
    s1.fout = (refillC s).fout ∧
    s1.out_size = (refillC s).out_size ∧
    s1.fin = (refillC s).fin ∧
    s1.in_size = (refillC s).in_size ∧
    s1.calls = (refillC s).calls ++ [⟨CallKind.compressStreamCall, res⟩] := by
  unfold compressBody at h
  dsimp only at h
  split at h
  · rename_i he
    injection h with h1 h2
    subst h1 h2
    exact ⟨he, rfl, rfl, rfl, rfl, rfl, rfl⟩
  · exact absurd h (by simp)

/-- Full characterization of a non-error execution of the finalization loop
body. -/
theorem endBody_done_spec {σ} {C : FL2_CStream σ} {s s1 : CompressState σ} {res}
    (h : endBody C s = .done s1 res) :
    FL2_isError res = false ∧
    res = (C.endStream s.fcs s.out_buf).2.2 ∧
    s1.fcs = (C.endStream s.fcs s.out_buf).1 ∧
    s1.in_buf = s.in_buf ∧
    s1.out_buf = { (C.endStream s.fcs s.out_buf).2.1 with pos := 0 } ∧
    s1.fout = (ffwrite s.fout ((C.endStream s.fcs s.out_buf).2.1).dst
        ((C.endStream s.fcs s.out_buf).2.1).pos).1 ∧
    s1.in_size = s.in_size ∧
    s1.out_size = s.out_size + ((C.endStream s.fcs s.out_buf).2.1).pos ∧
    s1.fin = s.fin ∧
    s1.calls = s.calls ++ [⟨CallKind.endStreamCall, res⟩] := by
  unfold endBody at h
  dsimp only at h
  split at h
  · exact absurd h (by simp)
  · rename_i he
    injection h with h1 h2
    subst h1 h2
    refine ⟨by simpa using he, rfl, rfl, rfl, rfl, rfl, rfl, rfl, rfl, rfl⟩

/-- Full characterization of the `goto error_out` execution of the
finalization loop body. -/
theorem endBody_fail_spec {σ} {C : FL2_CStream σ} {s s1 : CompressState σ} {res}
    (h : endBody C s = .fail s1 res) :
    FL2_isError res = true ∧
    res = (C.endStream s.fcs s.out_buf).2.2 ∧
    s1.fout = s.fout ∧
    s1.out_size = s.out_size ∧
    s1.fin = s.fin ∧
    s1.in_size = s.in_size ∧
    s1.calls = s.calls ++ [⟨CallKind.endStreamCall, res⟩] := by
  unfold endBody at h
  dsimp only at h
  split at h
  · rename_i he
    injection h with h1 h2
    subst h1 h2
    exact ⟨he, rfl, rfl, rfl, rfl, rfl, rfl⟩
  · exact absurd h (by simp)

/-- The unread region is never longer than `size - pos`. -/
theorem avail_length_le (ib : FL2_inBuffer) : ib.avail.length ≤ ib.size - ib.pos := by
  simp [FL2_inBuffer.avail]
  omega

/-- The store codec's compression engine satisfies the adapter contract. -/
theorem storeCContract : CStreamContract storeCStream := by
  constructor
  · intro st ob ib; rfl
  · intro st ob ib; rfl
  · intro st ob ib h; exact ⟨h, le_refl _⟩
  · intro st ob ib; rfl
  · intro st ob ib h; exact h
  · intro st ob ib h; exact h
  · intro st ob; rfl
  · intro st ob h
    unfold storeCStream
    dsimp only
    omega
  · intro st ob h
    unfold storeCStream
    dsimp only
    simp only [List.length_append, List.length_take]
    omega

/-- The store codec's decompression engine satisfies the adapter contract. -/
theorem storeDContract : DStreamContract storeDStream := by
  have hava : ∀ ib : FL2_inBuffer, ib.avail.length ≤ ib.size - ib.pos := avail_length_le
  constructor
  · intro st ob ib
    unfold storeDStream
    dsimp only
    cases st.hdr <;> dsimp only
    all_goals first
      | rfl
      | (cases ib.avail <;> rfl)
  · intro st ob ib
    unfold storeDStream
    dsimp only
    cases st.hdr <;> dsimp only
    all_goals first
      | rfl
      | (cases ib.avail <;> rfl)
  · intro st ob ib h
    have := hava ib
    unfold storeDStream
    dsimp only
    cases st.hdr with
    | none =>
      dsimp only
      cases ha : ib.avail with
      | nil => exact ⟨le_refl _, h⟩
      | cons n body =>
        have hlen : body.length + 1 = ib.avail.length := by rw [ha]; simp
        dsimp only
        omega
    | some n =>
      dsimp only
      omega
  · intro st ob ib
    unfold storeDStream
    dsimp only
    cases st.hdr <;> dsimp only
    all_goals first
      | rfl
      | (cases ib.avail <;> rfl)
  · intro st ob ib h
    unfold storeDStream
    dsimp only
    cases st.hdr <;> dsimp only
    · cases ib.avail with
      | nil => exact h
      | cons n body => dsimp only; omega
    · omega
  · intro st ob ib h
    unfold storeDStream
    dsimp only
    cases st.hdr <;> dsimp only
    · cases ha : ib.avail with
      | nil => exact h
      | cons n body =>
        dsimp only
        simp only [List.length_append, List.length_take]
        omega
    · simp only [List.length_append, List.length_take]
      omega

/-- Claim C4 (confirmed): the decompression loop continues after a body
exactly when the feed status is nonzero and the input buffer's byte count is
nonzero, and a normally completed loop ended either with a zero engine
status or because a refill returned 0 bytes — the latter only happens with
the source exhausted. -/
theorem claim_C4 :
    ∀ (σ : Type) (D : FL2_DStream σ), DStreamContract D →
      (∀ f (s : DecompressState σ) s1 res, s.in_buf.size ≠ 0 →
        decompressLoop D f s = some (.ok s1 res) →
        (res = 0 ∨ s1.in_buf.size = 0) ∧ (s1.in_buf.size = 0 → s1.fin.data = [])) ∧
      (∀ f (s : DecompressState σ) s1 res, decompressBody D s = .done s1 res →
        (res ≠ 0 ∧ s1.in_buf.size ≠ 0 → decompressLoop D (f + 1) s = decompressLoop D f s1) ∧
        (¬(res ≠ 0 ∧ s1.in_buf.size ≠ 0) → decompressLoop D (f + 1) s = some (.ok s1 res))) := by
  intro σ D hD
  constructor
  · intro f
    induction f with
    | zero => intro s s1 res hsz h; simp [decompressLoop] at h
    | succ f ih =>
      intro s s1 res hsz h
      rw [decompressLoop] at h
      cases hb : decompressBody D s with
      | fail s2 r2 => rw [hb] at h; simp at h
      | done s2 r2 =>
        rw [hb] at h
        dsimp only at h
        by_cases hg : r2 ≠ 0 ∧ s2.in_buf.size ≠ 0
        · rw [if_pos hg] at h
          exact ih s2 s1 res hg.2 h
        · rw [if_neg hg] at h
          obtain ⟨h1, h2⟩ : s2 = s1 ∧ r2 = res := by
            have := h
            simp at this
            exact ⟨this.1, this.2⟩
          subst h1 h2
          push_neg at hg
          constructor
          · by_cases hr : r2 = 0
            · exact Or.inl hr
            · exact Or.inr (hg hr)
          · intro hz
            obtain ⟨-, -, -, hib, -, -, -, -, hfin, -⟩ := decompressBody_done_spec hb
            have hsize : s2.in_buf.size = (refillD s).in_buf.size := by
              rw [hib]; exact hD.feedInSize _ _ _
            by_cases hp : s.in_buf.pos = s.in_buf.size
            · have hr := (refillD_spec s).1 hp
              rw [hr] at hsize hfin
              dsimp only at hsize hfin
              rw [hz] at hsize
              have hnil : s.fin.data.take 4096 = [] :=
                List.length_eq_zero.mp hsize.symm
              clear hsize
              have hdata : s.fin.data = [] := by
                rcases List.take_eq_nil_iff.mp hnil with h4 | hd
                · exact absurd h4 (by norm_num)
                · exact hd
              rw [hfin, hdata]
              simp
            · have hr := (refillD_spec s).2 hp
              rw [hr] at hsize
              rw [hz] at hsize
              exact absurd hsize.symm hsz
  · intro f s s1 res hb
    constructor
    · intro hg
      rw [decompressLoop, hb]
      dsimp only
      rw [if_pos hg]
    · intro hg
      rw [decompressLoop, hb]
      dsimp only
      rw [if_neg hg]

/-- Claim C4, witness: the characterization applied to a concrete completed
run — the store codec decompressing the container of the empty stream. -/
theorem claim_C4_witness :
    (initialDecompressState (⟨none, none⟩ : StoreDState) ⟨[0]⟩ ⟨[], true⟩).in_buf.size ≠ 0 ∧
    decompressLoop storeDStream 1
        (initialDecompressState (⟨none, none⟩ : StoreDState) ⟨[0]⟩ ⟨[], true⟩) =
      some (.ok ⟨⟨some 0, some 0⟩, ⟨[]⟩, ⟨[], true⟩, ⟨[0], 1, 1⟩, ⟨[], 8192, 0⟩, 1, 0,
        [⟨CallKind.decompressStreamCall, 0⟩]⟩ 0) ∧
    ((0 = 0 ∨ (FL2_inBuffer.mk [0] 1 1).size = 0) ∧
      ((FL2_inBuffer.mk [0] 1 1).size = 0 → ([] : List Nat) = [])) := by
  have hrun : decompressLoop storeDStream 1
      (initialDecompressState (⟨none, none⟩ : StoreDState) ⟨[0]⟩ ⟨[], true⟩) =
    some (.ok ⟨⟨some 0, some 0⟩, ⟨[]⟩, ⟨[], true⟩, ⟨[0], 1, 1⟩, ⟨[], 8192, 0⟩, 1, 0,
      [⟨CallKind.decompressStreamCall, 0⟩]⟩ 0) := by decide
  have h := (claim_C4 StoreDState storeDStream storeDContract).1 1 _ _ 0 (by decide) hrun
  exact ⟨by decide, hrun, h⟩

/-- The last element of a nonempty-tailed cons list. -/
theorem getLast?_cons_ne_nil {α : Type} (a : α) {l : List α} (h : l ≠ []) :
    (a :: l).getLast? = l.getLast? := by
  cases l with
  | nil => exact absurd rfl h
  | cons b t => exact List.getLast?_cons_cons

/-- Appending an error-free prefix preserves the errors-only-at-the-end
property. -/
theorem errorOnlyLast_append {evs1 evs2 : List CallEv}
    (h1 : ErrorFree evs1) (h2 : ErrorOnlyLast evs2) : ErrorOnlyLast (evs1 ++ evs2) := by
  intro i hi hlt
  simp only [List.length_append] at hi hlt
  by_cases hc : i < evs1.length
  · have : (evs1 ++ evs2).get ⟨i, by simpa [List.length_append] using hi⟩ ∈ evs1 := by
      rw [List.get_eq_getElem, List.getElem_append_left hc]
      exact List.getElem_mem _
    exact h1 _ this
  · have hge : evs1.length ≤ i := by omega
    have h2i : i - evs1.length < evs2.length := by omega
    have := h2 (i - evs1.length) h2i (by omega)
    rw [List.get_eq_getElem, List.getElem_append_right hge] at *
    exact this

/-- An error-free trace trivially has errors only at the end. -/
theorem errorFree_errorOnlyLast {evs : List CallEv} (h : ErrorFree evs) : ErrorOnlyLast evs := by
  intro i hi _
  exact h _ (List.get_mem _ _ _)

/-- Call-trace characterization of the finalization loop: it records only
`FL2_endStream` calls, every call before the final one returned a nonzero
non-error status, and a normal exit happens exactly at the first zero
status; an error exit records the error as the final call. -/
theorem endLoop_trace {σ} (C : FL2_CStream σ) :
    ∀ f (s : CompressState σ) e, endLoop C f s = some e →
      ∃ evs, evs ≠ [] ∧ (∀ ev ∈ evs, ev.kind = CallKind.endStreamCall) ∧
        (∀ i (hi : i < evs.length), i + 1 < evs.length →
          FL2_isError (evs.get ⟨i, hi⟩).res = false ∧ (evs.get ⟨i, hi⟩).res ≠ 0) ∧
        (match e with
         | .ok s1 res =>
             s1.calls = s.calls ++ evs ∧ ErrorFree evs ∧
             evs.getLast? = some ⟨CallKind.endStreamCall, res⟩ ∧ res = 0
         | .err s1 res =>
             s1.calls = s.calls ++ evs ∧
             evs.getLast? = some ⟨CallKind.endStreamCall, res⟩ ∧ FL2_isError res = true) := by
  intro f
  induction f with
  | zero => intro s e h; simp [endLoop] at h
  | succ f ih =>
    intro s e h
    rw [endLoop] at h
    cases hb : endBody C s with
    | fail s1 r =>
      rw [hb] at h
      dsimp only at h
      injection h with h1
      subst h1
      obtain ⟨herr, -, -, -, -, -, hcalls⟩ := endBody_fail_spec hb
      refine ⟨[⟨CallKind.endStreamCall, r⟩], by simp, by simp, by simp, ?_⟩
      exact ⟨hcalls, by simp, herr⟩
    | done s1 r =>
      rw [hb] at h
      dsimp only at h
      obtain ⟨hne, -, -, -, -, -, -, -, -, hcalls⟩ := endBody_done_spec hb
      by_cases hr : r ≠ 0
      · rw [if_pos hr] at h
        obtain ⟨evs1, hne1, hkind1, hpre1, hmatch⟩ := ih s1 e h
        refine ⟨⟨CallKind.endStreamCall, r⟩ :: evs1, by simp, ?_, ?_, ?_⟩
        · intro ev hev
          rcases List.mem_cons.mp hev with h1 | h1
          · rw [h1]
          · exact hkind1 ev h1
        · intro i hi hlt
          cases i with
          | zero => exact ⟨hne, hr⟩
          | succ j =>
            have hj : j < evs1.length := by simp at hi; omega
            have hlt1 : j + 1 < evs1.length := by simp at hlt; omega
            have := hpre1 j hj hlt1
            simpa using this
        · cases e with
          | ok s2 res =>
            obtain ⟨hc, hef, hlast, hres⟩ := hmatch
            refine ⟨by rw [hc, hcalls]; simp, ?_, ?_, hres⟩
            · intro ev hev
              rcases List.mem_cons.mp hev with h1 | h1
              · rw [h1]; exact hne
              · exact hef ev h1
            · rw [getLast?_cons_ne_nil _ hne1]; exact hlast
          | err s2 res =>
            obtain ⟨hc, hlast, herr⟩ := hmatch
            refine ⟨by rw [hc, hcalls]; simp, ?_, herr⟩
            rw [getLast?_cons_ne_nil _ hne1]; exact hlast
      · rw [if_neg hr] at h
        injection h with h1
        subst h1
        push_neg at hr
        refine ⟨[⟨CallKind.endStreamCall, r⟩], by simp, by simp, by simp, ?_⟩
        refine ⟨hcalls, ?_, by simp, hr⟩
        intro ev hev
        rcases List.mem_cons.mp hev with h1 | h1
        · rw [h1]; exact hne
        · simp at h1

/-- The refill steps do not touch the call trace. -/
theorem refillC_calls {σ} (s : CompressState σ) : (refillC s).calls = s.calls := by
  unfold refillC
  split <;> rfl

/-- The decompression refill step does not touch the call trace. -/
theorem refillD_calls {σ} (s : DecompressState σ) : (refillD s).calls = s.calls := by
  unfold refillD
  split <;> rfl

/-- Call-trace characterization of the compression main loop: it records
only `FL2_compressStream` calls, all non-error on a normal exit; an error
exit records the error as the final call with everything before it
error-free. -/
theorem compressLoop_trace {σ} (C : FL2_CStream σ) :
    ∀ f (s : CompressState σ) e, compressLoop C f s = some e →
      ∃ evs, evs ≠ [] ∧ (∀ ev ∈ evs, ev.kind = CallKind.compressStreamCall) ∧
        (match e with
         | .ok s1 res =>
             s1.calls = s.calls ++ evs ∧ ErrorFree evs ∧
             evs.getLast? = some ⟨CallKind.compressStreamCall, res⟩
         | .err s1 res =>
             s1.calls = s.calls ++ evs ∧ ErrorOnlyLast evs ∧
             evs.getLast? = some ⟨CallKind.compressStreamCall, res⟩ ∧
             FL2_isError res = true) := by
  intro f
  induction f with
  | zero => intro s e h; simp [compressLoop] at h
  | succ f ih =>
    intro s e h
    rw [compressLoop] at h
    cases hb : compressBody C s with
    | fail s1 r =>
      rw [hb] at h
      dsimp only at h
      injection h with h1
      subst h1
      obtain ⟨herr, -, -, -, -, -, hcalls⟩ := compressBody_fail_spec hb
      rw [refillC_calls] at hcalls
      refine ⟨[⟨CallKind.compressStreamCall, r⟩], by simp, by simp, ?_⟩
      refine ⟨hcalls, ?_, by simp, herr⟩
      intro i hi hlt
      simp at hi hlt
    | done s1 r =>
      rw [hb] at h
      dsimp only at h
      obtain ⟨hne, -, -, -, -, -, -, -, -, hcalls⟩ := compressBody_done_spec hb
      rw [refillC_calls] at hcalls
      by_cases hg : s1.in_buf.size ≠ 0
      · rw [if_pos hg] at h
        obtain ⟨evs1, hne1, hkind1, hmatch⟩ := ih s1 e h
        refine ⟨⟨CallKind.compressStreamCall, r⟩ :: evs1, by simp, ?_, ?_⟩
        · intro ev hev
          rcases List.mem_cons.mp hev with h1 | h1
          · rw [h1]
          · exact hkind1 ev h1
        · cases e with
          | ok s2 res =>
            obtain ⟨hc, hef, hlast⟩ := hmatch
            refine ⟨by rw [hc, hcalls]; simp, ?_, ?_⟩
            · intro ev hev
              rcases List.mem_cons.mp hev with h1 | h1
              · rw [h1]; exact hne
              · exact hef ev h1
            · rw [getLast?_cons_ne_nil _ hne1]; exact hlast
          | err s2 res =>
            obtain ⟨hc, hol, hlast, herr⟩ := hmatch
            refine ⟨by rw [hc, hcalls]; simp, ?_, ?_, herr⟩
            · have : ErrorFree [(⟨CallKind.compressStreamCall, r⟩ : CallEv)] := by
                intro ev hev
                simp at hev
                rw [hev]; exact hne
              simpa using errorOnlyLast_append this hol
            · rw [getLast?_cons_ne_nil _ hne1]; exact hlast
      · rw [if_neg hg] at h
        injection h with h1
        subst h1
        refine ⟨[⟨CallKind.compressStreamCall, r⟩], by simp, by simp, ?_⟩
        refine ⟨hcalls, ?_, by simp⟩
        intro ev hev
        rcases List.mem_cons.mp hev with h1 | h1
        · rw [h1]; exact hne
        · simp at h1

/-- Call-trace characterization of the decompression loop: it records only
`FL2_decompressStream` calls (in particular, no finalization calls), all
non-error on a normal exit; an error exit records the error as the final
call with everything before it error-free. -/
theorem decompressLoop_trace {σ} (D : FL2_DStream σ) :
    ∀ f (s : DecompressState σ) e, decompressLoop D f s = some e →
      ∃ evs, evs ≠ [] ∧ (∀ ev ∈ evs, ev.kind = CallKind.decompressStreamCall) ∧
        (match e with
         | .ok s1 res =>
             s1.calls = s.calls ++ evs ∧ ErrorFree evs ∧
             evs.getLast? = some ⟨CallKind.decompressStreamCall, res⟩
         | .err s1 res =>
             s1.calls = s.calls ++ evs ∧ ErrorOnlyLast evs ∧
             evs.getLast? = some ⟨CallKind.decompressStreamCall, res⟩ ∧
             FL2_isError res = true) := by
  intro f
  induction f with
  | zero => intro s e h; simp [decompressLoop] at h
  | succ f ih =>
    intro s e h
    rw [decompressLoop] at h
    cases hb : decompressBody D s with
    | fail s1 r =>
      rw [hb] at h
      dsimp only at h
      injection h with h1
      subst h1
      obtain ⟨herr, -, -, -, -, -, hcalls⟩ := decompressBody_fail_spec hb
      rw [refillD_calls] at hcalls
      refine ⟨[⟨CallKind.decompressStreamCall, r⟩], by simp, by simp, ?_⟩
      refine ⟨hcalls, ?_, by simp, herr⟩
      intro i hi hlt
      simp at hi hlt
    | done s1 r =>
      rw [hb] at h
      dsimp only at h
      obtain ⟨hne, -, -, -, -, -, -, -, -, hcalls⟩ := decompressBody_done_spec hb
      rw [refillD_calls] at hcalls
      by_cases hg : r ≠ 0 ∧ s1.in_buf.size ≠ 0
      · rw [if_pos hg] at h
        obtain ⟨evs1, hne1, hkind1, hmatch⟩ := ih s1 e h
        refine ⟨⟨CallKind.decompressStreamCall, r⟩ :: evs1, by simp, ?_, ?_⟩
        · intro ev hev
          rcases List.mem_cons.mp hev with h1 | h1
          · rw [h1]
          · exact hkind1 ev h1
        · cases e with
          | ok s2 res =>
            obtain ⟨hc, hef, hlast⟩ := hmatch
            refine ⟨by rw [hc, hcalls]; simp, ?_, ?_⟩
            · intro ev hev
              rcases List.mem_cons.mp hev with h1 | h1
              · rw [h1]; exact hne
              · exact hef ev h1
            · rw [getLast?_cons_ne_nil _ hne1]; exact hlast
          | err s2 res =>
            obtain ⟨hc, hol, hlast, herr⟩ := hmatch
            refine ⟨by rw [hc, hcalls]; simp, ?_, ?_, herr⟩
            · have : ErrorFree [(⟨CallKind.decompressStreamCall, r⟩ : CallEv)] := by
                intro ev hev
                simp at hev
                rw [hev]; exact hne
              simpa using errorOnlyLast_append this hol
            · rw [getLast?_cons_ne_nil _ hne1]; exact hlast
      · rw [if_neg hg] at h
        injection h with h1
        subst h1
        refine ⟨[⟨CallKind.decompressStreamCall, r⟩], by simp, by simp, ?_⟩
        refine ⟨hcalls, ?_, by simp⟩
        intro ev hev
        rcases List.mem_cons.mp hev with h1 | h1
        · rw [h1]; exact hne
        · simp at h1

/-- The last element of an append with nonempty right part. -/
theorem getLast?_append_ne_nil {α : Type} (l1 : List α) {l2 : List α} (h : l2 ≠ []) :
    (l1 ++ l2).getLast? = l2.getLast? := by
  induction l1 with
  | nil => rfl
  | cons a t ih =>
    rw [List.cons_append, getLast?_cons_ne_nil _ (by simp [List.append_eq_nil, h]), ih]

/-- A list's last element is its element at position `length - 1`. -/
theorem getLast?_to_get {α : Type} {l : List α} {x : α} (h : l.getLast? = some x)
    (i : Nat) (hi : i < l.length) (hlast : i + 1 = l.length) : l.get ⟨i, hi⟩ = x := by
  rw [List.getLast?_eq_getElem?] at h
  have he : l.length - 1 = i := by omega
  rw [he, List.getElem?_eq_getElem hi] at h
  injection h with h1

/-- A normally completed finalization loop leaves the output buffer drained
(`pos = 0`). -/
theorem endLoop_ok_out_pos {σ} (C : FL2_CStream σ) :
    ∀ f (s : CompressState σ) s1 res, endLoop C f s = some (.ok s1 res) →
      s1.out_buf.pos = 0 := by
  intro f
  induction f with
  | zero => intro s s1 res h; simp [endLoop] at h
  | succ f ih =>
    intro s s1 res h
    rw [endLoop] at h
    cases hb : endBody C s with
    | fail s2 r => rw [hb] at h; simp at h
    | done s2 r =>
      rw [hb] at h
      dsimp only at h
      by_cases hr : r ≠ 0
      · rw [if_pos hr] at h
        exact ih s2 s1 res h
      · rw [if_neg hr] at h
        obtain ⟨h1, -⟩ : s2 = s1 ∧ r = res := by
          have := h; simp at this; exact ⟨this.1, this.2⟩
        subst h1
        obtain ⟨-, -, -, -, hob, -⟩ := endBody_done_spec hb
        rw [hob]

/-- Claim C3 (confirmed): after the main loop, `compress_file` repeatedly
calls `FL2_endStream`; each non-error call is followed by writing
`out_buf.pos` bytes to the sink, adding them to `out_size` and resetting
`pos` to 0; a normally completed finalization phase consists of
`endStream` calls whose statuses are nonzero up to the final call, which
returned zero; and a `decompress_file` run performs no finalization — its
trace holds `FL2_decompressStream` calls only. -/
theorem claim_C3 :
    ∀ (σc σd : Type) (C : FL2_CStream σc) (D : FL2_DStream σd),
      (∀ f (s : CompressState σc) s1 res, endLoop C f s = some (.ok s1 res) →
        res = 0 ∧ s1.out_buf.pos = 0 ∧
        ∃ evs, s1.calls = s.calls ++ evs ∧ evs ≠ [] ∧
          (∀ ev ∈ evs, ev.kind = CallKind.endStreamCall) ∧
          (∀ i (hi : i < evs.length), i + 1 < evs.length → (evs.get ⟨i, hi⟩).res ≠ 0) ∧
          evs.getLast? = some ⟨CallKind.endStreamCall, 0⟩) ∧
      (∀ (s s1 : CompressState σc) r, endBody C s = .done s1 r →
        s1.out_buf.pos = 0 ∧
        s1.fout = (ffwrite s.fout ((C.endStream s.fcs s.out_buf).2.1).dst
          ((C.endStream s.fcs s.out_buf).2.1).pos).1 ∧
        s1.out_size = s.out_size + ((C.endStream s.fcs s.out_buf).2.1).pos) ∧
      (∀ (fds : σd) fin fout f o, decompress_file D fds fin fout f = some o →
        ∀ ev ∈ o.final.calls, ev.kind = CallKind.decompressStreamCall) := by
  intro σc σd C D
  refine ⟨?_, ?_, ?_⟩
  · intro f s s1 res h
    obtain ⟨evs, hne, hkind, hpre, hmatch⟩ := endLoop_trace C f s (.ok s1 res) h
    obtain ⟨hc, -, hlast, hres⟩ := hmatch
    subst hres
    exact ⟨rfl, endLoop_ok_out_pos C f s s1 0 h, evs, hc, hne, hkind,
      fun i hi hlt => (hpre i hi hlt).2, hlast⟩
  · intro s s1 r hb
    obtain ⟨-, -, -, -, hob, hfout, -, hos, -, -⟩ := endBody_done_spec hb
    exact ⟨by rw [hob], hfout, hos⟩
  · intro fds fin fout f o h
    unfold decompress_file at h
    cases hl : decompressLoop D f (initialDecompressState fds fin fout) with
    | none => rw [hl] at h; simp at h
    | some e =>
      rw [hl] at h
      obtain ⟨evs, -, hkind, hmatch⟩ := decompressLoop_trace D f _ e hl
      cases e with
      | ok s1 res =>
        dsimp only at h
        injection h with h1
        subst h1
        obtain ⟨hc, -, -⟩ := hmatch
        intro ev hev
        dsimp only at hev
        rw [hc] at hev
        simp only [initialDecompressState, List.nil_append] at hev
        exact hkind ev hev
      | err s1 res =>
        dsimp only at h
        injection h with h1
        subst h1
        obtain ⟨hc, -, -, -⟩ := hmatch
        intro ev hev
        dsimp only at hev
        rw [hc] at hev
        simp only [initialDecompressState, List.nil_append] at hev
        exact hkind ev hev

/-- Claim C5 (confirmed): in any completed run, an error-returning adapter
call is necessarily the run's final adapter call; the run then returns 1
with the engine's error name printed to standard error; and `main` forwards
the pump's return value as the process exit code when no resource failure
occurred. -/
theorem claim_C5 :
    ∀ (σc σd : Type) (C : FL2_CStream σc) (D : FL2_DStream σd),
      (∀ (fcs : σc) fin fout f1 f2 o, compress_file C fcs fin fout f1 f2 = some o →
        ∀ i (hi : i < o.final.calls.length),
          FL2_isError ((o.final.calls.get ⟨i, hi⟩).res) = true →
          i + 1 = o.final.calls.length ∧ o.ret = 1 ∧
          o.stderrOut = some (FL2_getErrorName ((o.final.calls.get ⟨i, hi⟩).res))) ∧
      (∀ (fds : σd) fin fout f o, decompress_file D fds fin fout f = some o →
        ∀ i (hi : i < o.final.calls.length),
          FL2_isError ((o.final.calls.get ⟨i, hi⟩).res) = true →
          i + 1 = o.final.calls.length ∧ o.ret = 1 ∧
          o.stderrOut = some (FL2_getErrorName ((o.final.calls.get ⟨i, hi⟩).res))) ∧
      (∀ (w : World) (pr : Nat), w.createCOk = true → w.createDOk = true →
        FL2_isError (if w.initCRes = 0 then w.initDRes else w.initCRes) = false →
        w.openInOk = true → w.openOutOk = true → (main_run w pr).2 = pr) := by
  intro σc σd C D
  refine ⟨?_, ?_, ?_⟩
  · intro fcs fin fout f1 f2 o h i hi herr
    unfold compress_file at h
    cases hl : compressLoop C f1 (initialCompressState fcs fin fout) with
    | none => rw [hl] at h; simp at h
    | some e =>
      rw [hl] at h
      obtain ⟨evs, hne, -, hmatch⟩ := compressLoop_trace C f1 _ e hl
      have hnil : (initialCompressState fcs fin fout).calls = [] := rfl
      cases e with
      | err s1 res =>
        dsimp only at h
        injection h with h1
        obtain ⟨hc, hol, hlast, -⟩ := hmatch
        have hfin : o.final = s1 := by rw [← h1]
        have hret : o.ret = 1 := by rw [← h1]
        have hstd : o.stderrOut = some (FL2_getErrorName res) := by rw [← h1]
        have hcalls : o.final.calls = evs := by
          rw [hfin, hc, hnil]
          exact List.nil_append evs
        have hol2 : ErrorOnlyLast o.final.calls := by rw [hcalls]; exact hol
        have hlast2 : o.final.calls.getLast? = some ⟨CallKind.compressStreamCall, res⟩ := by
          rw [hcalls]; exact hlast
        have hil : i + 1 = o.final.calls.length := by
          by_contra hnei
          have hlt : i + 1 < o.final.calls.length := by omega
          have hcontra := hol2 i hi hlt
          simp only [List.get_eq_getElem] at hcontra
          simp [hcontra] at herr
        have hget := getLast?_to_get hlast2 i hi hil
        refine ⟨hil, hret, ?_⟩
        rw [hget, hstd]
      | ok s1 r =>
        dsimp only at h
        cases hl2 : endLoop C f2 s1 with
        | none => rw [hl2] at h; simp at h
        | some e2 =>
          rw [hl2] at h
          obtain ⟨evs2, hne2, -, hpre2, hmatch2⟩ := endLoop_trace C f2 s1 e2 hl2
          obtain ⟨hc1, hef1, -⟩ := hmatch
          cases e2 with
          | ok s2 res2 =>
            dsimp only at h
            injection h with h1
            obtain ⟨hc2, hef2, -, -⟩ := hmatch2
            have hfin : o.final = s2 := by rw [← h1]
            have hcalls : o.final.calls = evs ++ evs2 := by
              rw [hfin, hc2, hc1, hnil]
              simp only [List.nil_append]
            have hmem : o.final.calls.get ⟨i, hi⟩ ∈ o.final.calls := List.get_mem _ _ _
            have hfreeAll : ErrorFree o.final.calls := by
              rw [hcalls]
              intro ev hev
              rcases List.mem_append.mp hev with hx | hx
              exacts [hef1 _ hx, hef2 _ hx]
            have hfree := hfreeAll _ hmem
            simp only [List.get_eq_getElem] at hfree
            simp [hfree] at herr
          | err s2 res2 =>
            dsimp only at h
            injection h with h1
            obtain ⟨hc2, hlast2, -⟩ := hmatch2
            have hfin : o.final = s2 := by rw [← h1]
            have hret : o.ret = 1 := by rw [← h1]
            have hstd : o.stderrOut = some (FL2_getErrorName res2) := by rw [← h1]
            have hcalls : o.final.calls = evs ++ evs2 := by
              rw [hfin, hc2, hc1, hnil]
              simp only [List.nil_append]
            have hol2 : ErrorOnlyLast o.final.calls := by
              rw [hcalls]
              exact errorOnlyLast_append hef1 (fun j hj hjl => (hpre2 j hj hjl).1)
            have hlastAll : o.final.calls.getLast? =
                some ⟨CallKind.endStreamCall, res2⟩ := by
              rw [hcalls, getLast?_append_ne_nil _ hne2]
              exact hlast2
            have hil : i + 1 = o.final.calls.length := by
              by_contra hnei
              have hlt : i + 1 < o.final.calls.length := by omega
              have hcontra := hol2 i hi hlt
              simp only [List.get_eq_getElem] at hcontra
              simp [hcontra] at herr
            have hget := getLast?_to_get hlastAll i hi hil
            refine ⟨hil, hret, ?_⟩
            rw [hget, hstd]
  · intro fds fin fout f o h i hi herr
    unfold decompress_file at h
    cases hl : decompressLoop D f (initialDecompressState fds fin fout) with
    | none => rw [hl] at h; simp at h
    | some e =>
      rw [hl] at h
      obtain ⟨evs, hne, -, hmatch⟩ := decompressLoop_trace D f _ e hl
      have hnil : (initialDecompressState fds fin fout).calls = [] := rfl
      cases e with
      | err s1 res =>
        dsimp only at h
        injection h with h1
        obtain ⟨hc, hol, hlast, -⟩ := hmatch
        have hfin : o.final = s1 := by rw [← h1]
        have hret : o.ret = 1 := by rw [← h1]
        have hstd : o.stderrOut = some (FL2_getErrorName res) := by rw [← h1]
        have hcalls : o.final.calls = evs := by
          rw [hfin, hc, hnil]
          exact List.nil_append evs
        have hol2 : ErrorOnlyLast o.final.calls := by rw [hcalls]; exact hol
        have hlast2 : o.final.calls.getLast? =
            some ⟨CallKind.decompressStreamCall, res⟩ := by
          rw [hcalls]; exact hlast
        have hil : i + 1 = o.final.calls.length := by
          by_contra hnei
          have hlt : i + 1 < o.final.calls.length := by omega
          have hcontra := hol2 i hi hlt
          simp only [List.get_eq_getElem] at hcontra
          simp [hcontra] at herr
        have hget := getLast?_to_get hlast2 i hi hil
        refine ⟨hil, hret, ?_⟩
        rw [hget, hstd]
      | ok s1 r =>
        dsimp only at h
        injection h with h1
        obtain ⟨hc, hef, -⟩ := hmatch
        have hfin : o.final = s1 := by rw [← h1]
        have hcalls : o.final.calls = evs := by
          rw [hfin, hc, hnil]
          exact List.nil_append evs
        have hmem : o.final.calls.get ⟨i, hi⟩ ∈ o.final.calls := List.get_mem _ _ _
        have hfreeAll : ErrorFree o.final.calls := by
          rw [hcalls]
          exact hef
        have hfree := hfreeAll _ hmem
        simp only [List.get_eq_getElem] at hfree
        simp [hfree] at herr
  · intro w pr h1 h2 h3 h4 h5
    obtain ⟨cC, cD, iC, iD, oI, oO⟩ := w
    simp only at h1 h2 h3 h4 h5
    subst h1 h2 h4 h5
    unfold main_run create_init_fl2_streams open_files
    by_cases hc : iC = 0 <;>
      simp_all [exitPathEvents]

/-- Claim C3, witness: the finalization characterization applied to a
concrete store-codec state holding one received byte, and the
no-finalization half applied to a concrete decompression run. -/
theorem claim_C3_witness :
    endLoop storeCStream 1
        ⟨⟨[5], none⟩, ⟨[]⟩, ⟨[], true⟩, ⟨[], 0, 0⟩, ⟨[], 4096, 0⟩, 0, 0, []⟩ =
      some (.ok ⟨⟨[5], some []⟩, ⟨[]⟩, ⟨[1, 5], true⟩, ⟨[], 0, 0⟩, ⟨[1, 5], 4096, 0⟩, 0, 2,
        [⟨CallKind.endStreamCall, 0⟩]⟩ 0) ∧
    (0 = 0 ∧
      (⟨⟨[5], some []⟩, ⟨[]⟩, ⟨[1, 5], true⟩, ⟨[], 0, 0⟩, ⟨[1, 5], 4096, 0⟩, 0, 2,
        [⟨CallKind.endStreamCall, 0⟩]⟩ : CompressState StoreCState).out_buf.pos = 0) ∧
    endBody storeCStream
        ⟨⟨[5], none⟩, ⟨[]⟩, ⟨[], true⟩, ⟨[], 0, 0⟩, ⟨[], 4096, 0⟩, 0, 0, []⟩ =
      .done ⟨⟨[5], some []⟩, ⟨[]⟩, ⟨[1, 5], true⟩, ⟨[], 0, 0⟩, ⟨[1, 5], 4096, 0⟩, 0, 2,
        [⟨CallKind.endStreamCall, 0⟩]⟩ 0 ∧
    decompress_file storeDStream ⟨none, none⟩ ⟨[0]⟩ ⟨[], true⟩ 1 =
      some ⟨⟨⟨some 0, some 0⟩, ⟨[]⟩, ⟨[], true⟩, ⟨[0], 1, 1⟩, ⟨[], 8192, 0⟩, 1, 0,
        [⟨CallKind.decompressStreamCall, 0⟩]⟩, 0, none⟩ ∧
    (⟨CallKind.decompressStreamCall, 0⟩ : CallEv).kind = CallKind.decompressStreamCall := by
  have hrun : endLoop storeCStream 1
      ⟨⟨[5], none⟩, ⟨[]⟩, ⟨[], true⟩, ⟨[], 0, 0⟩, ⟨[], 4096, 0⟩, 0, 0, []⟩ =
    some (.ok ⟨⟨[5], some []⟩, ⟨[]⟩, ⟨[1, 5], true⟩, ⟨[], 0, 0⟩, ⟨[1, 5], 4096, 0⟩, 0, 2,
      [⟨CallKind.endStreamCall, 0⟩]⟩ 0) := by decide
  have hbody : endBody storeCStream
      ⟨⟨[5], none⟩, ⟨[]⟩, ⟨[], true⟩, ⟨[], 0, 0⟩, ⟨[], 4096, 0⟩, 0, 0, []⟩ =
    .done ⟨⟨[5], some []⟩, ⟨[]⟩, ⟨[1, 5], true⟩, ⟨[], 0, 0⟩, ⟨[1, 5], 4096, 0⟩, 0, 2,
      [⟨CallKind.endStreamCall, 0⟩]⟩ 0 := by decide
  have hrun3 : decompress_file storeDStream ⟨none, none⟩ ⟨[0]⟩ ⟨[], true⟩ 1 =
      some ⟨⟨⟨some 0, some 0⟩, ⟨[]⟩, ⟨[], true⟩, ⟨[0], 1, 1⟩, ⟨[], 8192, 0⟩, 1, 0,
        [⟨CallKind.decompressStreamCall, 0⟩]⟩, 0, none⟩ := by decide
  have h1 := (claim_C3 StoreCState StoreDState storeCStream storeDStream).1 1 _ _ 0 hrun
  have h3 := (claim_C3 StoreCState StoreDState storeCStream storeDStream).2.2
    ⟨none, none⟩ ⟨[0]⟩ ⟨[], true⟩ 1 _ hrun3 ⟨CallKind.decompressStreamCall, 0⟩ (by decide)
  exact ⟨hrun, ⟨h1.1, h1.2.1⟩, hbody, hrun3, h3⟩

/-- Claim C5, witness: the short-circuit property applied to a concrete run
whose engine errors on the first feed, and the exit-code property applied to
the all-successful world. -/
theorem claim_C5_witness :
    (compress_file failingCStream () ⟨[]⟩ ⟨[], true⟩ 1 1).map
        (fun o => (o.final.calls, o.ret, o.stderrOut)) =
      some ([⟨CallKind.compressStreamCall, 2 ^ 64 - 1⟩], 1,
        some (FL2_getErrorName (2 ^ 64 - 1))) ∧
    FL2_isError (2 ^ 64 - 1) = true ∧
    (0 : Nat) + 1 = 1 ∧
    (main_run ⟨true, true, 0, 0, true, true⟩ 7).2 = 7 := by
  have hmap : (compress_file failingCStream () ⟨[]⟩ ⟨[], true⟩ 1 1).map
      (fun o => (o.final.calls, o.ret, o.stderrOut)) =
    some ([⟨CallKind.compressStreamCall, 2 ^ 64 - 1⟩], 1,
      some (FL2_getErrorName (2 ^ 64 - 1))) := rfl
  obtain ⟨o, ho, hproj⟩ := Option.map_eq_some'.mp hmap
  have hcalls : o.final.calls = [⟨CallKind.compressStreamCall, 2 ^ 64 - 1⟩] :=
    congrArg (fun p => p.1) hproj
  have hlen : o.final.calls.length = 1 := by rw [hcalls]; rfl
  have hlast : o.final.calls.getLast? = some ⟨CallKind.compressStreamCall, 2 ^ 64 - 1⟩ := by
    rw [hcalls]; rfl
  have hget := getLast?_to_get hlast 0 (by omega) (by omega)
  have h := (claim_C5 Unit Unit failingCStream failingDStream).1 () ⟨[]⟩ ⟨[], true⟩ 1 1 o
    ho 0 (by omega) (by rw [hget]; decide)
  have hm := (claim_C5 Unit Unit failingCStream failingDStream).2.2
    ⟨true, true, 0, 0, true, true⟩ 7 rfl rfl (by decide) rfl rfl
  exact ⟨hmap, by decide, by omega, hm⟩

/-- Claim C8 (confirmed): for a contract-conforming engine, both buffers
satisfy `pos ≤ size ≤ capacity` at every loop-iteration boundary in both
directions — the initial states satisfy the invariant and every loop body
(main, finalization and decompression, on both its normal and error exits)
preserves it. -/
theorem claim_C8 :
    ∀ (σc σd : Type) (C : FL2_CStream σc) (D : FL2_DStream σd),
      CStreamContract C → DStreamContract D →
      (∀ (fcs : σc) fin fout, InvC (initialCompressState fcs fin fout)) ∧
      (∀ (s s1 : CompressState σc) r, InvC s →
        compressBody C s = .done s1 r ∨ compressBody C s = .fail s1 r → InvC s1) ∧
      (∀ (s s1 : CompressState σc) r, InvC s →
        endBody C s = .done s1 r ∨ endBody C s = .fail s1 r → InvC s1) ∧
      (∀ (fds : σd) fin fout, InvD (initialDecompressState fds fin fout)) ∧
      (∀ (s s1 : DecompressState σd) r, InvD s →
        decompressBody D s = .done s1 r ∨ decompressBody D s = .fail s1 r → InvD s1) := by
  intro σc σd C D hC hD
  have hrefC : ∀ s : CompressState σc, InvC s → InvC (refillC s) ∧ (refillC s).out_buf = s.out_buf := by
    intro s hs
    unfold refillC
    split
    · refine ⟨⟨?_, ?_, hs.2.2.1, hs.2.2.2⟩, rfl⟩
      · dsimp only; omega
      · dsimp only
        simp only [ffread, List.length_take]
        omega
    · exact ⟨hs, rfl⟩
  have hrefD : ∀ s : DecompressState σd, InvD s → InvD (refillD s) ∧ (refillD s).out_buf = s.out_buf := by
    intro s hs
    unfold refillD
    split
    · refine ⟨⟨?_, ?_, hs.2.2.1, hs.2.2.2⟩, rfl⟩
      · dsimp only; omega
      · dsimp only
        simp only [ffread, List.length_take]
        omega
    · exact ⟨hs, rfl⟩
  refine ⟨?_, ?_, ?_, ?_, ?_⟩
  · intro fcs fin fout
    exact ⟨le_refl _, le_refl _, Nat.zero_le _, le_refl _⟩
  · intro s s1 r hs hb
    obtain ⟨hr, hob⟩ := hrefC s hs
    obtain ⟨hp1, hp2, hp3, hp4⟩ := hr
    have hin := hC.feedInSize (refillC s).fcs (refillC s).out_buf (refillC s).in_buf
    have hinp := hC.feedInPos (refillC s).fcs (refillC s).out_buf (refillC s).in_buf hp1
    have hout := hC.feedOutSize (refillC s).fcs (refillC s).out_buf (refillC s).in_buf
    have houtp := hC.feedOutPos (refillC s).fcs (refillC s).out_buf (refillC s).in_buf hp3
    cases hb with
    | inl hdone =>
      obtain ⟨-, -, -, hib, hobuf, -, -, -, -, -⟩ := compressBody_done_spec hdone
      refine ⟨?_, ?_, ?_, ?_⟩
      · rw [hib, hin]; exact hinp.2
      · rw [hib, hin]; exact hp2
      · rw [hobuf]; dsimp only; omega
      · rw [hobuf]; dsimp only; rw [hout]; exact hp4
    | inr hfail =>
      unfold compressBody at hfail
      dsimp only at hfail
      split at hfail
      · injection hfail with h1 h2
        subst h1
        refine ⟨?_, ?_, ?_, ?_⟩
        · dsimp only; rw [hin]; exact hinp.2
        · dsimp only; rw [hin]; exact hp2
        · dsimp only; rw [hout]; exact houtp
        · dsimp only; rw [hout]; exact hp4
      · exact absurd hfail (by simp)
  · intro s s1 r hs hb
    obtain ⟨hp1, hp2, hp3, hp4⟩ := hs
    have hout := hC.endOutSize s.fcs s.out_buf
    have houtp := hC.endOutPos s.fcs s.out_buf hp3
    cases hb with
    | inl hdone =>
      obtain ⟨-, -, -, hib, hobuf, -, -, -, -, -⟩ := endBody_done_spec hdone
      refine ⟨?_, ?_, ?_, ?_⟩
      · rw [hib]; exact hp1
      · rw [hib]; exact hp2
      · rw [hobuf]; dsimp only; omega
      · rw [hobuf]; dsimp only; rw [hout]; exact hp4
    | inr hfail =>
      unfold endBody at hfail
      dsimp only at hfail
      split at hfail
      · injection hfail with h1 h2
        subst h1
        refine ⟨hp1, hp2, ?_, ?_⟩
        · dsimp only; rw [hout]; exact houtp
        · dsimp only; rw [hout]; exact hp4
      · exact absurd hfail (by simp)
  · intro fds fin fout
    exact ⟨le_refl _, le_refl _, Nat.zero_le _, le_refl _⟩
  · intro s s1 r hs hb
    obtain ⟨hr, hob⟩ := hrefD s hs
    obtain ⟨hp1, hp2, hp3, hp4⟩ := hr
    have hin := hD.feedInSize (refillD s).fds (refillD s).out_buf (refillD s).in_buf
    have hinp := hD.feedInPos (refillD s).fds (refillD s).out_buf (refillD s).in_buf hp1
    have hout := hD.feedOutSize (refillD s).fds (refillD s).out_buf (refillD s).in_buf
    have houtp := hD.feedOutPos (refillD s).fds (refillD s).out_buf (refillD s).in_buf hp3
    cases hb with
    | inl hdone =>
      obtain ⟨-, -, -, hib, hobuf, -, -, -, -, -⟩ := decompressBody_done_spec hdone
      refine ⟨?_, ?_, ?_, ?_⟩
      · rw [hib, hin]; exact hinp.2
      · rw [hib, hin]; exact hp2
      · rw [hobuf]; dsimp only; omega
      · rw [hobuf]; dsimp only; rw [hout]; exact hp4
    | inr hfail =>
      unfold decompressBody at hfail
      dsimp only at hfail
      split at hfail
      · injection hfail with h1 h2
        subst h1
        refine ⟨?_, ?_, ?_, ?_⟩
        · dsimp only; rw [hin]; exact hinp.2
        · dsimp only; rw [hin]; exact hp2
        · dsimp only; rw [hout]; exact houtp
        · dsimp only; rw [hout]; exact hp4
      · exact absurd hfail (by simp)

/-- Claim C8, witness: the invariant theorem applied to the store codec at
concrete initial states and to one concrete finalization body step. -/
theorem claim_C8_witness :
    InvC (initialCompressState (⟨[], none⟩ : StoreCState) ⟨[5]⟩ ⟨[], true⟩) ∧
    InvD (initialDecompressState (⟨none, none⟩ : StoreDState) ⟨[0]⟩ ⟨[], true⟩) ∧
    InvC (⟨⟨[5], some []⟩, ⟨[]⟩, ⟨[1, 5], true⟩, ⟨[], 0, 0⟩, ⟨[1, 5], 4096, 0⟩, 0, 2,
      [⟨CallKind.endStreamCall, 0⟩]⟩ : CompressState StoreCState) := by
  have h := claim_C8 StoreCState StoreDState storeCStream storeDStream
    storeCContract storeDContract
  refine ⟨h.1 _ _ _, h.2.2.2.1 _ _ _, ?_⟩
  refine h.2.2.1 ⟨⟨[5], none⟩, ⟨[]⟩, ⟨[], true⟩, ⟨[], 0, 0⟩, ⟨[], 4096, 0⟩, 0, 0, []⟩ _ 0
    (by constructor <;> simp) (Or.inl (by decide))

/-- The produce-only engine satisfies the adapter contract. -/
theorem produceOnlyContract : CStreamContract produceOnlyCStream := by
  constructor
  · intro st ob ib; unfold produceOnlyCStream; dsimp only; split <;> rfl
  · intro st ob ib; unfold produceOnlyCStream; dsimp only; split <;> rfl
  · intro st ob ib h
    unfold produceOnlyCStream; dsimp only
    split <;> exact ⟨le_refl _, h⟩
  · intro st ob ib; unfold produceOnlyCStream; dsimp only; split <;> rfl
  · intro st ob ib h
    unfold produceOnlyCStream; dsimp only
    split
    · dsimp only; omega
    · exact h
  · intro st ob ib h
    unfold produceOnlyCStream; dsimp only
    split
    · dsimp only
      simp only [List.length_append, List.length_take, List.length_cons, List.length_nil]
      omega
    · exact h
  · intro st ob; rfl
  · intro st ob h; exact h
  · intro st ob h; exact h

/-- With the produce-only engine the compression main loop runs forever from
any state whose input buffer holds an unread byte. -/
theorem produceOnly_loop_none :
    ∀ f (s : CompressState Unit), s.in_buf.pos < s.in_buf.size →
      s.out_buf.pos = 0 → 0 < s.out_buf.size →
      compressLoop produceOnlyCStream f s = none := by
  intro f
  induction f with
  | zero => intro s h1 h2 h3; rfl
  | succ f ih =>
    intro s h1 h2 h3
    have href : refillC s = s := (refillC_spec s).2 (by omega)
    rw [compressLoop]
    cases hb : compressBody produceOnlyCStream s with
    | fail s1 r =>
      obtain ⟨herr, hres, -⟩ := compressBody_fail_spec hb
      rw [href] at hres
      have hz : r = 0 := by
        rw [hres]; unfold produceOnlyCStream; dsimp only; split <;> rfl
      rw [hz] at herr
      exact absurd herr (by decide)
    | done s1 r =>
      dsimp only
      obtain ⟨-, -, -, hib, hobuf, -, -, -, -, -⟩ := compressBody_done_spec hb
      rw [href] at hib hobuf
      have hib2 : s1.in_buf = s.in_buf := by
        rw [hib]
        unfold produceOnlyCStream
        dsimp only
        split <;> rfl
      have hos : ((produceOnlyCStream.compressStream s.fcs s.out_buf s.in_buf).2.1).size =
          s.out_buf.size := produceOnlyContract.feedOutSize s.fcs s.out_buf s.in_buf
      have hsz : s1.in_buf.size ≠ 0 := by rw [hib2]; omega
      rw [if_pos hsz]
      apply ih
      · rw [hib2]; exact h1
      · rw [hobuf]
      · rw [hobuf]
        dsimp only
        rw [hos]
        exact h3

/-- Claim C2, counterexample: the claim's progress precondition ("every feed
call consumes or produces at least one byte") does not ensure termination —
the contract-conforming produce-only engine satisfies it yet the compression
main loop never terminates on the one-byte source `[7]`. -/
theorem claim_C2_counterexample : ¬ ClaimC2Statement := by
  intro h
  obtain ⟨f, r, hr⟩ := h Unit produceOnlyCStream () [7] produceOnlyContract
    (by
      intro st ob ib h1 h2
      right
      unfold produceOnlyCStream
      dsimp only
      rw [if_pos h2]
      dsimp only
      omega)
    (by
      intro st ob ib
      unfold produceOnlyCStream
      dsimp only
      split <;> (dsimp only; decide))
  cases f with
  | zero => simp [compressLoop] at hr
  | succ f =>
    rw [compressLoop] at hr
    have hb : compressBody produceOnlyCStream
        (initialCompressState () ⟨[7]⟩ ⟨[], true⟩) =
      .done ⟨(), ⟨[]⟩, ⟨[0], true⟩, ⟨[7], 1, 0⟩, ⟨[0], 4096, 0⟩, 1, 1,
        [⟨CallKind.compressStreamCall, 0⟩]⟩ 0 := by decide
    rw [hb] at hr
    dsimp only at hr
    rw [if_pos (by decide)] at hr
    rw [produceOnly_loop_none f _ (by decide) (by decide) (by decide)] at hr
    exact absurd hr (by simp)

/-- Claim C2 (amended): the weak "consume or produce" progress premise is
not enough (see the counterexample); under the strengthened premise that a
feed call offered unread input with a drained output buffer consumes at
least one byte, the compression main loop of a non-erroring
contract-conforming engine terminates for every source, and it terminates
exactly at end of source with the input buffer fully consumed
(`size = 0 = pos`, source empty). -/
theorem claim_C2 :
    ∀ (σ : Type) (C : FL2_CStream σ), CStreamContract C →
      (∀ st ob ib, ib.pos < ib.size → ob.pos = 0 →
        ib.pos < ((C.compressStream st ob ib).2.2.1).pos) →
      (∀ st ob ib, FL2_isError ((C.compressStream st ob ib).2.2.2) = false) →
      ∀ (fcs : σ) (src : List Nat),
        ∃ (f : Nat) (s1 : CompressState σ) (r : Nat),
          compressLoop C f (initialCompressState fcs ⟨src⟩ ⟨[], true⟩) = some (.ok s1 r) ∧
          s1.in_buf.size = 0 ∧ s1.in_buf.pos = s1.in_buf.size ∧ s1.fin.data = [] := by
  intro σ C hC hprog hne
  have aux : ∀ n (s : CompressState σ),
      s.in_buf.pos ≤ s.in_buf.size → s.out_buf.pos = 0 →
      s.fin.data.length + (s.in_buf.size - s.in_buf.pos) ≤ n →
      ∃ s1 r, compressLoop C (n + 1) s = some (.ok s1 r) ∧
        s1.in_buf.size = 0 ∧ s1.in_buf.pos = 0 ∧ s1.fin.data = [] := by
    intro n
    induction n with
    | zero =>
      intro s hps hop hm
      have hfin : s.fin.data = [] := by
        cases hd : s.fin.data with
        | nil => rfl
        | cons a t => rw [hd] at hm; simp at hm
      have hpe : s.in_buf.pos = s.in_buf.size := by omega
      rw [compressLoop]
      cases hb : compressBody C s with
      | fail s1 r =>
        obtain ⟨herr, hres, -⟩ := compressBody_fail_spec hb
        rw [hres, hne] at herr
        exact absurd herr (by decide)
      | done s1 r =>
        dsimp only
        obtain ⟨-, -, -, hib, -, -, -, -, hfin1, -⟩ := compressBody_done_spec hb
        have href := (refillC_spec s).1 hpe
        have hsz : s1.in_buf.size = 0 := by
          rw [hib, hC.feedInSize, href]
          dsimp only
          simp [hfin]
        rw [if_neg (by omega)]
        refine ⟨s1, r, rfl, hsz, ?_, ?_⟩
        · have := hC.feedInPos (refillC s).fcs (refillC s).out_buf (refillC s).in_buf
            (by rw [href]; dsimp only; omega)
          have hsz2 : (refillC s).in_buf.size = 0 := by
            rw [href]; dsimp only; simp [hfin]
          rw [hib]
          omega
        · rw [hfin1, href]
          dsimp only
          simp [hfin]
    | succ n ih =>
      intro s hps hop hm
      rw [compressLoop]
      cases hb : compressBody C s with
      | fail s1 r =>
        obtain ⟨herr, hres, -⟩ := compressBody_fail_spec hb
        rw [hres, hne] at herr
        exact absurd herr (by decide)
      | done s1 r =>
        dsimp only
        obtain ⟨-, -, -, hib, hobuf, -, -, -, hfin1, -⟩ := compressBody_done_spec hb
        by_cases hpe : s.in_buf.pos = s.in_buf.size
        · have href := (refillC_spec s).1 hpe
          cases hd : s.fin.data with
          | nil =>
            have hsz : s1.in_buf.size = 0 := by
              rw [hib, hC.feedInSize, href]
              dsimp only
              simp [hd]
            rw [if_neg (by omega)]
            refine ⟨s1, r, rfl, hsz, ?_, ?_⟩
            · have hsz2 : (refillC s).in_buf.size = 0 := by
                rw [href]; dsimp only; simp [hd]
              have hrp2 : (refillC s).in_buf.pos = 0 := by rw [href]
              have := hC.feedInPos (refillC s).fcs (refillC s).out_buf (refillC s).in_buf
                (by omega)
              rw [hib]
              omega
            · rw [hfin1, href]
              dsimp only
              simp [hd]
          | cons a t =>
            have hn0 : (refillC s).in_buf.size = (s.fin.data.take 8192).length := by
              rw [href]
            have hn0pos : 0 < (s.fin.data.take 8192).length := by
              rw [hd]
              simp
            have hrp : (refillC s).in_buf.pos = 0 := by rw [href]
            have hrop : (refillC s).out_buf.pos = 0 := by rw [href]; dsimp only; exact hop
            have hprg := hprog (refillC s).fcs (refillC s).out_buf (refillC s).in_buf
              (by omega) hrop
            have hbnd := hC.feedInPos (refillC s).fcs (refillC s).out_buf (refillC s).in_buf
              (by omega)
            have hsz1 : s1.in_buf.size = (s.fin.data.take 8192).length := by
              rw [hib, hC.feedInSize, hn0]
            rw [if_pos (by omega)]
            have hfl : s1.fin.data.length = s.fin.data.length - (s.fin.data.take 8192).length := by
              rw [hfin1, href]
              dsimp only
              simp
              omega
            have hmeas : s1.fin.data.length + (s1.in_buf.size - s1.in_buf.pos) ≤ n := by
              have htk : (s.fin.data.take 8192).length ≤ s.fin.data.length := by
                simp
              have h1 : 0 < s1.in_buf.pos := by rw [hib]; omega
              have h2 : s1.in_buf.pos ≤ (s.fin.data.take 8192).length := by
                rw [hib]
                omega
              omega
            exact ih s1 (by rw [hib, hC.feedInSize]; omega) (by rw [hobuf]) hmeas
        · have hlt : s.in_buf.pos < s.in_buf.size := by omega
          have href := (refillC_spec s).2 hpe
          rw [href] at hib hobuf hfin1
          have hprg := hprog s.fcs s.out_buf s.in_buf (by omega) hop
          have hbnd := hC.feedInPos s.fcs s.out_buf s.in_buf (by omega)
          have hsz1 : s1.in_buf.size = s.in_buf.size := by
            rw [hib, hC.feedInSize]
          rw [if_pos (by omega)]
          have hfin2 : s1.fin.data = s.fin.data := by rw [hfin1]
          have hmeas : s1.fin.data.length + (s1.in_buf.size - s1.in_buf.pos) ≤ n := by
            rw [hfin2, hsz1]
            have h1 : s.in_buf.pos < s1.in_buf.pos := by
              rw [hib]
              exact hprg
            have h2 : s1.in_buf.pos ≤ s.in_buf.size := by
              rw [hib]
              exact hbnd.2
            omega
          exact ih s1 (by rw [hib, hC.feedInSize]; exact hbnd.2) (by rw [hobuf]) hmeas
  intro fcs src
  obtain ⟨s1, r, hr, h1, h2, h3⟩ := aux src.length
    (initialCompressState fcs ⟨src⟩ ⟨[], true⟩) (le_refl _) rfl
    (by show src.length + (8192 - 8192) ≤ src.length; omega)
  exact ⟨src.length + 1, s1, r, hr, h1, by omega, h3⟩

/-- Claim C2, witness: the amended termination theorem applied to the store
codec and the three-byte source `[1, 2, 3]`. -/
theorem claim_C2_witness :
    ∃ (f : Nat) (s1 : CompressState StoreCState) (r : Nat),
      compressLoop storeCStream f
          (initialCompressState ⟨[], none⟩ ⟨[1, 2, 3]⟩ ⟨[], true⟩) = some (.ok s1 r) ∧
      s1.in_buf.size = 0 ∧ s1.in_buf.pos = s1.in_buf.size ∧ s1.fin.data = [] := by
  refine claim_C2 StoreCState storeCStream storeCContract ?_ ?_ ⟨[], none⟩ [1, 2, 3]
  · intro st ob ib h1 h2
    exact h1
  · intro st ob ib
    show FL2_isError 0 = false
    decide

/-- The compression refill step touches only the source and input buffer. -/
theorem refillC_other {σ} (s : CompressState σ) :
    (refillC s).out_buf = s.out_buf ∧ (refillC s).fout = s.fout ∧
    (refillC s).out_size = s.out_size ∧ (refillC s).fcs = s.fcs ∧
    (refillC s).in_size + (refillC s).fin.data.length = s.in_size + s.fin.data.length := by
  unfold refillC
  split
  · refine ⟨rfl, rfl, rfl, rfl, ?_⟩
    dsimp only
    simp [ffread]
    omega
  · exact ⟨rfl, rfl, rfl, rfl, rfl⟩

/-- The decompression refill step touches only the source and input buffer. -/
theorem refillD_other {σ} (s : DecompressState σ) :
    (refillD s).out_buf = s.out_buf ∧ (refillD s).fout = s.fout ∧
    (refillD s).out_size = s.out_size ∧ (refillD s).fds = s.fds ∧
    (refillD s).in_size + (refillD s).fin.data.length = s.in_size + s.fin.data.length := by
  unfold refillD
  split
  · refine ⟨rfl, rfl, rfl, rfl, ?_⟩
    dsimp only
    simp [ffread]
    omega
  · exact ⟨rfl, rfl, rfl, rfl, rfl⟩

/-- Sink accounting for the compression main loop: with a good sink whose
buffer invariant holds, the sink grows by exactly the bytes added to
`out_size`, stays good, and a normal exit leaves the output buffer
drained. -/
theorem compressLoop_sink {σ} (C : FL2_CStream σ) (hC : CStreamContract C) :
    ∀ f (s : CompressState σ) e, s.fout.good = true → s.out_buf.pos = 0 →
      compressLoop C f s = some e →
      (e.state).fout.good = true ∧
      (e.state).fout.data.length + s.out_size = s.fout.data.length + (e.state).out_size ∧
      (match e with | .ok s1 _ => s1.out_buf.pos = 0 | .err _ _ => True) := by
  intro f
  induction f with
  | zero => intro s e hg hp h; simp [compressLoop] at h
  | succ f ih =>
    intro s e hg hp h
    rw [compressLoop] at h
    obtain ⟨hrob, hrfout, hros, -, -⟩ := refillC_other s
    cases hb : compressBody C s with
    | fail s1 r =>
      rw [hb] at h
      injection h with h1
      subst h1
      obtain ⟨-, -, hfout, hos, -, -, -⟩ := compressBody_fail_spec hb
      dsimp only [LoopExit.state]
      rw [hfout, hrfout, hos, hros]
      exact ⟨hg, rfl, trivial⟩
    | done s1 r =>
      rw [hb] at h
      dsimp only at h
      obtain ⟨-, -, -, -, hobuf, hfout, -, hos, -, -⟩ := compressBody_done_spec hb
      have hple : ((C.compressStream (refillC s).fcs (refillC s).out_buf (refillC s).in_buf).2.1).pos ≤
          ((C.compressStream (refillC s).fcs (refillC s).out_buf (refillC s).in_buf).2.1).dst.length := by
        apply hC.feedOutLen
        rw [hrob, hp]
        omega
      have hlen : s1.fout.data.length = s.fout.data.length +
          ((C.compressStream (refillC s).fcs (refillC s).out_buf (refillC s).in_buf).2.1).pos := by
        rw [hfout, hrfout]
        unfold ffwrite
        dsimp only
        rw [if_pos hg]
        simp [List.length_take]
        omega
      have hg1 : s1.fout.good = true := by
        rw [hfout]
        unfold ffwrite
        dsimp only
        rw [hrfout]
        exact hg
      have hos1 : s1.out_size = s.out_size +
          ((C.compressStream (refillC s).fcs (refillC s).out_buf (refillC s).in_buf).2.1).pos := by
        rw [hos, hros]
      by_cases hsz : s1.in_buf.size ≠ 0
      · rw [if_pos hsz] at h
        obtain ⟨ihg, ihlen, ihok⟩ := ih s1 e hg1 (by rw [hobuf]) h
        refine ⟨ihg, by omega, ihok⟩
      · rw [if_neg hsz] at h
        injection h with h1
        subst h1
        exact ⟨hg1, by dsimp only [LoopExit.state]; omega, by dsimp only; rw [hobuf]⟩

/-- Sink accounting for the finalization loop. -/
theorem endLoop_sink {σ} (C : FL2_CStream σ) (hC : CStreamContract C) :
    ∀ f (s : CompressState σ) e, s.fout.good = true → s.out_buf.pos = 0 →
      endLoop C f s = some e →
      (e.state).fout.good = true ∧
      (e.state).fout.data.length + s.out_size = s.fout.data.length + (e.state).out_size ∧
      (match e with | .ok s1 _ => s1.out_buf.pos = 0 | .err _ _ => True) := by
  intro f
  induction f with
  | zero => intro s e hg hp h; simp [endLoop] at h
  | succ f ih =>
    intro s e hg hp h
    rw [endLoop] at h
    cases hb : endBody C s with
    | fail s1 r =>
      rw [hb] at h
      injection h with h1
      subst h1
      obtain ⟨-, -, hfout, hos, -, -, -⟩ := endBody_fail_spec hb
      dsimp only [LoopExit.state]
      rw [hfout, hos]
      exact ⟨hg, rfl, trivial⟩
    | done s1 r =>
      rw [hb] at h
      dsimp only at h
      obtain ⟨-, -, -, -, hobuf, hfout, -, hos, -, -⟩ := endBody_done_spec hb
      have hple : ((C.endStream s.fcs s.out_buf).2.1).pos ≤
          ((C.endStream s.fcs s.out_buf).2.1).dst.length := by
        apply hC.endOutLen
        omega
      have hlen : s1.fout.data.length = s.fout.data.length +
          ((C.endStream s.fcs s.out_buf).2.1).pos := by
        rw [hfout]
        unfold ffwrite
        dsimp only
        rw [if_pos hg]
        simp [List.length_take]
        omega
      have hg1 : s1.fout.good = true := by
        rw [hfout]
        unfold ffwrite
        dsimp only
        exact hg
      by_cases hr : r ≠ 0
      · rw [if_pos hr] at h
        obtain ⟨ihg, ihlen, ihok⟩ := ih s1 e hg1 (by rw [hobuf]) h
        refine ⟨ihg, by omega, ihok⟩
      · rw [if_neg hr] at h
        injection h with h1
        subst h1
        refine ⟨hg1, by dsimp only [LoopExit.state]; omega, by dsimp only; rw [hobuf]⟩

/-- Sink accounting for the decompression loop. -/
theorem decompressLoop_sink {σ} (D : FL2_DStream σ) (hD : DStreamContract D) :
    ∀ f (s : DecompressState σ) e, s.fout.good = true → s.out_buf.pos = 0 →
      decompressLoop D f s = some e →
      (e.state).fout.good = true ∧
      (e.state).fout.data.length + s.out_size = s.fout.data.length + (e.state).out_size ∧
      (match e with | .ok s1 _ => s1.out_buf.pos = 0 | .err _ _ => True) := by
  intro f
  induction f with
  | zero => intro s e hg hp h; simp [decompressLoop] at h
  | succ f ih =>
    intro s e hg hp h
    rw [decompressLoop] at h
    obtain ⟨hrob, hrfout, hros, -, -⟩ := refillD_other s
    cases hb : decompressBody D s with
    | fail s1 r =>
      rw [hb] at h
      injection h with h1
      subst h1
      obtain ⟨-, -, hfout, hos, -, -, -⟩ := decompressBody_fail_spec hb
      dsimp only [LoopExit.state]
      rw [hfout, hrfout, hos, hros]
      exact ⟨hg, rfl, trivial⟩
    | done s1 r =>
      rw [hb] at h
      dsimp only at h
      obtain ⟨-, -, -, -, hobuf, hfout, -, hos, -, -⟩ := decompressBody_done_spec hb
      have hple : ((D.decompressStream (refillD s).fds (refillD s).out_buf (refillD s).in_buf).2.1).pos ≤
          ((D.decompressStream (refillD s).fds (refillD s).out_buf (refillD s).in_buf).2.1).dst.length := by
        apply hD.feedOutLen
        rw [hrob, hp]
        omega
      have hlen : s1.fout.data.length = s.fout.data.length +
          ((D.decompressStream (refillD s).fds (refillD s).out_buf (refillD s).in_buf).2.1).pos := by
        rw [hfout, hrfout]
        unfold ffwrite
        dsimp only
        rw [if_pos hg]
        simp [List.length_take]
        omega
      have hg1 : s1.fout.good = true := by
        rw [hfout]
        unfold ffwrite
        dsimp only
        rw [hrfout]
        exact hg
      have hos1 : s1.out_size = s.out_size +
          ((D.decompressStream (refillD s).fds (refillD s).out_buf (refillD s).in_buf).2.1).pos := by
        rw [hos, hros]
      by_cases hg2 : r ≠ 0 ∧ s1.in_buf.size ≠ 0
      · rw [if_pos hg2] at h
        obtain ⟨ihg, ihlen, ihok⟩ := ih s1 e hg1 (by rw [hobuf]) h
        refine ⟨ihg, by omega, ihok⟩
      · rw [if_neg hg2] at h
        injection h with h1
        subst h1
        refine ⟨hg1, by dsimp only [LoopExit.state]; omega, by dsimp only; rw [hobuf]⟩

/-- Source accounting for the compression main loop: `in_size` plus the
unread source is invariant, and a normal exit has consumed the whole
source. -/
theorem compressLoop_in_size {σ} (C : FL2_CStream σ) (hC : CStreamContract C) :
    ∀ f (s : CompressState σ) s1 r, s.in_buf.size ≠ 0 →
      compressLoop C f s = some (.ok s1 r) →
      s1.in_size + s1.fin.data.length = s.in_size + s.fin.data.length ∧
      s1.fin.data = [] := by
  intro f
  induction f with
  | zero => intro s s1 r hsz h; simp [compressLoop] at h
  | succ f ih =>
    intro s s1 r hsz h
    rw [compressLoop] at h
    cases hb : compressBody C s with
    | fail s2 r2 => rw [hb] at h; simp at h
    | done s2 r2 =>
      rw [hb] at h
      dsimp only at h
      obtain ⟨-, -, -, hib, -, -, hisz, -, hfin, -⟩ := compressBody_done_spec hb
      obtain ⟨-, -, -, -, hmeas⟩ := refillC_other s
      have hstep : s2.in_size + s2.fin.data.length = s.in_size + s.fin.data.length := by
        rw [hisz, hfin]
        exact hmeas
      by_cases hg : s2.in_buf.size ≠ 0
      · rw [if_pos hg] at h
        obtain ⟨ih1, ih2⟩ := ih s2 s1 r hg h
        exact ⟨by omega, ih2⟩
      · rw [if_neg hg] at h
        obtain ⟨h1, h2⟩ : s2 = s1 ∧ r2 = r := by
          have := h; simp at this; exact ⟨this.1, this.2⟩
        subst h1
        refine ⟨hstep, ?_⟩
        push_neg at hg
        have hsize : s2.in_buf.size = (refillC s).in_buf.size := by
          rw [hib]; exact hC.feedInSize _ _ _
        by_cases hp : s.in_buf.pos = s.in_buf.size
        · have hr := (refillC_spec s).1 hp
          rw [hr] at hsize hfin
          dsimp only at hsize hfin
          rw [hg] at hsize
          have hnil : s.fin.data.take 8192 = [] := List.length_eq_zero.mp hsize.symm
          have hdata : s.fin.data = [] := by
            rcases List.take_eq_nil_iff.mp hnil with h4 | hd
            · exact absurd h4 (by norm_num)
            · exact hd
          rw [hfin, hdata]
          simp
        · have hr := (refillC_spec s).2 hp
          rw [hr] at hsize
          rw [hg] at hsize
          exact absurd hsize.symm hsz

/-- The finalization loop touches neither the source nor `in_size`. -/
theorem endLoop_in_size {σ} (C : FL2_CStream σ) :
    ∀ f (s : CompressState σ) e, endLoop C f s = some e →
      (e.state).in_size = s.in_size ∧ (e.state).fin = s.fin := by
  intro f
  induction f with
  | zero => intro s e h; simp [endLoop] at h
  | succ f ih =>
    intro s e h
    rw [endLoop] at h
    cases hb : endBody C s with
    | fail s1 r =>
      rw [hb] at h
      injection h with h1
      subst h1
      obtain ⟨-, -, -, -, hfin, hisz, -⟩ := endBody_fail_spec hb
      exact ⟨hisz, hfin⟩
    | done s1 r =>
      rw [hb] at h
      dsimp only at h
      obtain ⟨-, -, -, -, -, -, hisz, -, hfin, -⟩ := endBody_done_spec hb
      by_cases hr : r ≠ 0
      · rw [if_pos hr] at h
        obtain ⟨ih1, ih2⟩ := ih s1 e h
        rw [ih1, ih2, hisz, hfin]
        exact ⟨rfl, rfl⟩
      · rw [if_neg hr] at h
        injection h with h1
        subst h1
        exact ⟨hisz, hfin⟩

/-- Source accounting for the decompression loop: `in_size` plus the unread
source is invariant. -/
theorem decompressLoop_in_size {σ} (D : FL2_DStream σ) :
    ∀ f (s : DecompressState σ) e, decompressLoop D f s = some e →
      (e.state).in_size + (e.state).fin.data.length = s.in_size + s.fin.data.length := by
  intro f
  induction f with
  | zero => intro s e h; simp [decompressLoop] at h
  | succ f ih =>
    intro s e h
    rw [decompressLoop] at h
    obtain ⟨-, -, -, -, hmeas⟩ := refillD_other s
    cases hb : decompressBody D s with
    | fail s1 r =>
      rw [hb] at h
      injection h with h1
      subst h1
      obtain ⟨-, -, -, -, hfin, hisz, -⟩ := decompressBody_fail_spec hb
      dsimp only [LoopExit.state]
      rw [hisz, hfin]
      exact hmeas
    | done s1 r =>
      rw [hb] at h
      dsimp only at h
      obtain ⟨-, -, -, -, -, -, hisz, -, hfin, -⟩ := decompressBody_done_spec hb
      have hstep : s1.in_size + s1.fin.data.length = s.in_size + s.fin.data.length := by
        rw [hisz, hfin]
        exact hmeas
      by_cases hg : r ≠ 0 ∧ s1.in_buf.size ≠ 0
      · rw [if_pos hg] at h
        have := ih s1 e h
        omega
      · rw [if_neg hg] at h
        injection h with h1
        subst h1
        exact hstep

/-- Claim C7 (amended): for a run that completes without an engine error and
with a working sink, the bytes written to the sink equal the reported
`out_size` in both directions, and for compression the bytes read into the
input buffer (`in_size`) equal the source size; for decompression `in_size`
can stay below the source size when the engine signals completion early
(see the counterexample), so only `in_size ≤ |source|` holds. -/
theorem claim_C7 :
    ∀ (σc σd : Type) (C : FL2_CStream σc) (D : FL2_DStream σd),
      CStreamContract C → DStreamContract D →
      (∀ (fcs : σc) S d f1 f2 o, compress_file C fcs ⟨S⟩ ⟨d, true⟩ f1 f2 = some o →
        o.ret = 0 →
        o.final.in_size = S.length ∧
        o.final.fout.data.length = d.length + o.final.out_size) ∧
      (∀ (fds : σd) S d f o, decompress_file D fds ⟨S⟩ ⟨d, true⟩ f = some o →
        o.ret = 0 →
        o.final.fout.data.length = d.length + o.final.out_size ∧
        o.final.in_size ≤ S.length) := by
  intro σc σd C D hC hD
  constructor
  · intro fcs S d f1 f2 o h hret
    unfold compress_file at h
    cases hl : compressLoop C f1 (initialCompressState fcs ⟨S⟩ ⟨d, true⟩) with
    | none => rw [hl] at h; simp at h
    | some e =>
      rw [hl] at h
      cases e with
      | err s1 res =>
        dsimp only at h
        injection h with h1
        rw [← h1] at hret
        exact absurd hret (by simp)
      | ok s1 r =>
        dsimp only at h
        cases hl2 : endLoop C f2 s1 with
        | none => rw [hl2] at h; simp at h
        | some e2 =>
          rw [hl2] at h
          cases e2 with
          | err s2 res2 =>
            dsimp only at h
            injection h with h1
            rw [← h1] at hret
            exact absurd hret (by simp)
          | ok s2 res2 =>
            dsimp only at h
            injection h with h1
            have hfin : o.final = s2 := by rw [← h1]
            obtain ⟨hi1, hi2⟩ := compressLoop_in_size C hC f1
              (initialCompressState fcs ⟨S⟩ ⟨d, true⟩) s1 r (by show (8192 : Nat) ≠ 0; decide) hl
            obtain ⟨he1, he2⟩ := endLoop_in_size C f2 s1 (.ok s2 res2) hl2
            obtain ⟨-, hs1, hok1⟩ := compressLoop_sink C hC f1 _ (.ok s1 r) rfl rfl hl
            obtain ⟨-, hs2, -⟩ := endLoop_sink C hC f2 s1 (.ok s2 res2)
              (by
                obtain ⟨hg, -, -⟩ := compressLoop_sink C hC f1 _ (.ok s1 r) rfl rfl hl
                exact hg)
              (by exact hok1) hl2
            dsimp only [LoopExit.state] at hi1 hi2 he1 he2 hs1 hs2
            simp only [initialCompressState] at hi1 hs1
            constructor
            · rw [hfin, he1]
              rw [hi2] at hi1
              simpa using hi1
            · rw [hfin]
              omega
  · intro fds S d f o h hret
    unfold decompress_file at h
    cases hl : decompressLoop D f (initialDecompressState fds ⟨S⟩ ⟨d, true⟩) with
    | none => rw [hl] at h; simp at h
    | some e =>
      rw [hl] at h
      cases e with
      | err s1 res =>
        dsimp only at h
        injection h with h1
        rw [← h1] at hret
        exact absurd hret (by simp)
      | ok s1 r =>
        dsimp only at h
        injection h with h1
        have hfin : o.final = s1 := by rw [← h1]
        have hi := decompressLoop_in_size D f _ (.ok s1 r) hl
        obtain ⟨-, hs, -⟩ := decompressLoop_sink D hD f _ (.ok s1 r) rfl rfl hl
        dsimp only [LoopExit.state] at hi hs
        simp only [initialDecompressState] at hi hs
        constructor
        · rw [hfin]
          omega
        · rw [hfin]
          omega

/-- Claim C7, counterexample to the decompression half as stated: a
conforming engine that signals completion on the first call (as with
trailing data after the container) leaves the loop after one 4096-byte
refill, so only 4096 of the 4097 source bytes are ever supplied to feed. -/
theorem claim_C7_counterexample :
    (decompress_file instantDoneDStream () ⟨List.replicate 4097 0⟩ ⟨[], true⟩ 2).map
        (fun o => (o.ret, o.final.in_size)) = some (0, 4096) ∧
    (List.replicate 4097 (0 : Nat)).length = 4097 ∧ (4096 : Nat) ≠ 4097 := by
  refine ⟨?_, by simp [-List.reduceReplicate], by decide⟩
  have herr : FL2_isError 0 = false := by decide
  simp [decompress_file, decompressLoop, decompressBody, refillD, ffread, ffwrite,
    instantDoneDStream, initialDecompressState, herr, List.take_replicate,
    -List.reduceReplicate]

/-- Claim C7, witness: the accounting theorem applied to concrete store-codec
runs — compressing the one-byte source `[5]` and decompressing its
container `[1, 5]`. -/
theorem claim_C7_witness :
    compress_file storeCStream ⟨[], none⟩ ⟨[5]⟩ ⟨[], true⟩ 2 2 =
      some ⟨⟨⟨[5], some []⟩, ⟨[]⟩, ⟨[1, 5], true⟩, ⟨[], 0, 0⟩, ⟨[1, 5], 4096, 0⟩, 1, 2,
        [⟨CallKind.compressStreamCall, 0⟩, ⟨CallKind.compressStreamCall, 0⟩,
          ⟨CallKind.endStreamCall, 0⟩]⟩, 0, none⟩ ∧
    ((1 : Nat) = 1 ∧ (2 : Nat) = 0 + 2) ∧
    decompress_file storeDStream ⟨none, none⟩ ⟨[1, 5]⟩ ⟨[], true⟩ 1 =
      some ⟨⟨⟨some 1, some 0⟩, ⟨[]⟩, ⟨[5], true⟩, ⟨[1, 5], 2, 2⟩, ⟨[5], 8192, 0⟩, 2, 1,
        [⟨CallKind.decompressStreamCall, 0⟩]⟩, 0, none⟩ ∧
    ((1 : Nat) = 0 + 1 ∧ (2 : Nat) ≤ 2) := by
  have hc : compress_file storeCStream ⟨[], none⟩ ⟨[5]⟩ ⟨[], true⟩ 2 2 =
      some ⟨⟨⟨[5], some []⟩, ⟨[]⟩, ⟨[1, 5], true⟩, ⟨[], 0, 0⟩, ⟨[1, 5], 4096, 0⟩, 1, 2,
        [⟨CallKind.compressStreamCall, 0⟩, ⟨CallKind.compressStreamCall, 0⟩,
          ⟨CallKind.endStreamCall, 0⟩]⟩, 0, none⟩ := by decide
  have hd : decompress_file storeDStream ⟨none, none⟩ ⟨[1, 5]⟩ ⟨[], true⟩ 1 =
      some ⟨⟨⟨some 1, some 0⟩, ⟨[]⟩, ⟨[5], true⟩, ⟨[1, 5], 2, 2⟩, ⟨[5], 8192, 0⟩, 2, 1,
        [⟨CallKind.decompressStreamCall, 0⟩]⟩, 0, none⟩ := by decide
  have h := claim_C7 StoreCState StoreDState storeCStream storeDStream
    storeCContract storeDContract
  have h1 := h.1 ⟨[], none⟩ [5] [] 2 2 _ hc rfl
  have h2 := h.2 ⟨none, none⟩ [1, 5] [] 1 _ hd rfl
  exact ⟨hc, ⟨h1.1, h1.2⟩, hd, ⟨h2.1, h2.2⟩⟩

/-- The store codec's feed call, in closed form. -/
theorem storeC_feed_eq (a : StoreCState) (b : FL2_outBuffer) (c : FL2_inBuffer) :
    storeCStream.compressStream a b c =
      (⟨a.received ++ c.avail, a.pending⟩, b, { c with pos := c.size }, 0) := rfl

/-- The store codec's finalization call, in closed form. -/
theorem storeC_end_eq (a : StoreCState) (b : FL2_outBuffer) :
    storeCStream.endStream a b =
      (⟨a.received, some ((storePending a).drop
          (min (b.size - b.pos) (storePending a).length))⟩,
       { b with
         dst := b.dst.take b.pos ++ (storePending a).take
           (min (b.size - b.pos) (storePending a).length),
         pos := b.pos + min (b.size - b.pos) (storePending a).length },
       if ((storePending a).drop (min (b.size - b.pos) (storePending a).length)).length = 0
       then 0 else 1) := rfl

/-- Round-trip stage 1: the compression main loop with the store codec
accumulates the whole source into the engine state, writes nothing to the
sink, and exits normally with the input drained. -/
theorem storeC_main :
    ∀ n (s : CompressState StoreCState),
      s.in_buf.pos = s.in_buf.size → s.out_buf.pos = 0 → s.fcs.pending = none →
      s.fin.data.length ≤ n →
      ∃ s1, compressLoop storeCStream (n + 1) s = some (.ok s1 0) ∧
        s1.fcs = ⟨s.fcs.received ++ s.fin.data, none⟩ ∧
        s1.fout = s.fout ∧ s1.fin.data = [] ∧
        s1.out_buf = s.out_buf := by
  intro n
  induction n with
  | zero =>
    intro s hpe hop hpend hm
    have hfin : s.fin.data = [] := List.length_eq_zero.mp (by omega)
    rw [compressLoop]
    cases hb : compressBody storeCStream s with
    | fail s1 r =>
      obtain ⟨herr, hres, -⟩ := compressBody_fail_spec hb
      rw [storeC_feed_eq] at hres
      dsimp only at hres
      rw [hres] at herr
      exact absurd herr (by decide)
    | done s1 r =>
      dsimp only
      obtain ⟨-, hres, hfcs, hib, hobuf, hfout, -, -, hfin1, -⟩ := compressBody_done_spec hb
      have href := (refillC_spec s).1 hpe
      rw [storeC_feed_eq] at hres hfcs hib hobuf hfout
      dsimp only at hres hfcs hib hobuf hfout
      have hsz : s1.in_buf.size = 0 := by
        rw [hib, href]
        dsimp only
        simp [hfin]
      rw [if_neg (by omega)]
      subst hres
      refine ⟨s1, rfl, ?_, ?_, ?_, ?_⟩
      · rw [hfcs, href]
        dsimp only
        obtain ⟨-, -, -, hfcs2, -⟩ := refillC_other s
        rw [hfin, hpend]
        simp [FL2_inBuffer.avail, hfin]
      · rw [hfout, href]
        dsimp only
        unfold ffwrite
        dsimp only
        cases hf : s.fout with
        | mk d g => cases g <;> simp [hop]
      · rw [hfin1, href]
        dsimp only
        simp [hfin]
      · rw [hobuf, href]
        dsimp only
        cases hb2 : s.out_buf with
        | mk dd ss pp =>
          rw [hb2] at hop
          dsimp only at hop
          rw [hop]
  | succ n ih =>
    intro s hpe hop hpend hm
    rw [compressLoop]
    cases hb : compressBody storeCStream s with
    | fail s1 r =>
      obtain ⟨herr, hres, -⟩ := compressBody_fail_spec hb
      rw [storeC_feed_eq] at hres
      dsimp only at hres
      rw [hres] at herr
      exact absurd herr (by decide)
    | done s1 r =>
      dsimp only
      obtain ⟨-, hres, hfcs, hib, hobuf, hfout, -, -, hfin1, -⟩ := compressBody_done_spec hb
      have href := (refillC_spec s).1 hpe
      rw [storeC_feed_eq] at hres hfcs hib hobuf hfout
      dsimp only at hres hfcs hib hobuf hfout
      subst hres
      have hout1 : s1.out_buf = s.out_buf := by
        rw [hobuf, href]
        dsimp only
        cases hb2 : s.out_buf with
        | mk dd ss pp =>
          rw [hb2] at hop
          dsimp only at hop
          rw [hop]
      have hfout1 : s1.fout = s.fout := by
        rw [hfout, href]
        dsimp only
        unfold ffwrite
        dsimp only
        cases hf : s.fout with
        | mk d g => cases g <;> simp [hop]
      have hfcs1 : s1.fcs = ⟨s.fcs.received ++ s.fin.data.take 8192, none⟩ := by
        rw [hfcs, href]
        dsimp only
        rw [hpend]
        have hav : (FL2_inBuffer.mk (s.fin.data.take 8192) (s.fin.data.take 8192).length 0).avail
            = s.fin.data.take 8192 := by
          simp [FL2_inBuffer.avail]
        rw [hav]
      have hfin2 : s1.fin.data = s.fin.data.drop 8192 := by
        rw [hfin1, href]
      have hsz1 : s1.in_buf.size = (s.fin.data.take 8192).length := by
        rw [hib, href]
      have hpos1 : s1.in_buf.pos = s1.in_buf.size := by
        rw [hib, href]
      cases hd : s.fin.data with
      | nil =>
        have hsz0 : s1.in_buf.size = 0 := by rw [hsz1, hd]; rfl
        rw [if_neg (by omega)]
        refine ⟨s1, rfl, ?_, hfout1, ?_, hout1⟩
        · rw [hfcs1, hd]
          simp
        · rw [hfin2, hd]
          rfl
      | cons a t =>
        have hn0 : 0 < (s.fin.data.take 8192).length := by rw [hd]; simp
        rw [if_pos (by omega)]
        have hmeas : s1.fin.data.length ≤ n := by
          rw [hfin2]
          rw [hd] at hm ⊢
          simp at hm ⊢
          omega
        obtain ⟨s2, hrun2, hfcs2, hfout2, hfin3, hout2⟩ :=
          ih s1 hpos1 (by rw [hout1]; exact hop) (by rw [hfcs1]) hmeas
        refine ⟨s2, hrun2, ?_, by rw [hfout2, hfout1], hfin3, by rw [hout2, hout1]⟩
        rw [hfcs2, hfcs1, hfin2]
        dsimp only
        rw [List.append_assoc, List.take_append_drop, hd]

/-- A freshly refilled input buffer's unread region is its whole contents. -/
theorem avail_full (l : List Nat) : (FL2_inBuffer.mk l l.length 0).avail = l := by
  simp [FL2_inBuffer.avail]

/-- Taking `min m (length l)` elements is the same as taking `m`. -/
theorem take_min_eq (l : List Nat) (m : Nat) : l.take (min m l.length) = l.take m := by
  rcases Nat.le_total m l.length with h | h
  · rw [Nat.min_eq_left h]
  · rw [Nat.min_eq_right h, List.take_length, List.take_of_length_le h]

/-- Dropping `min m (length l)` elements is the same as dropping `m`. -/
theorem drop_min_eq (l : List Nat) (m : Nat) : l.drop (min m l.length) = l.drop m := by
  rcases Nat.le_total m l.length with h | h
  · rw [Nat.min_eq_left h]
  · rw [Nat.min_eq_right h, List.drop_length, List.drop_eq_nil_of_le h]

/-- `ffwrite` on a good sink appends the written prefix and keeps it good. -/
theorem ffwrite_good (fout : OutFile) (buf : List Nat) (k : Nat)
    (hg : fout.good = true) :
    (ffwrite fout buf k).1 = ⟨fout.data ++ buf.take k, true⟩ := by
  cases fout with
  | mk d g =>
    cases g
    · simp at hg
    · simp [ffwrite]

/-- One finalization-loop body with the store codec: it moves the next
(at most 4096-byte) chunk of the pending container into the sink, and
returns 0 exactly when what was pending fit into the output buffer. -/
theorem storeC_end_iter (s : CompressState StoreCState)
    (hop : s.out_buf.pos = 0) (hos : s.out_buf.size = 4096)
    (hg : s.fout.good = true) :
    ∃ s1 r, endBody storeCStream s = .done s1 r ∧
      s1.fout = ⟨s.fout.data ++ (storePending s.fcs).take 4096, true⟩ ∧
      s1.out_buf.pos = 0 ∧ s1.out_buf.size = 4096 ∧
      storePending s1.fcs = (storePending s.fcs).drop 4096 ∧
      (r = 0 ↔ (storePending s.fcs).length ≤ 4096) := by
  cases hb : endBody storeCStream s with
  | fail s1 r =>
    obtain ⟨herr, hres, -, -, -, -, -⟩ := endBody_fail_spec hb
    have hne : FL2_isError r = false := by
      rw [hres, storeC_end_eq]
      dsimp only
      split <;> decide
    rw [hne] at herr
    simp at herr
  | done s1 r =>
    obtain ⟨-, hres, hfcs, -, hobuf, hfout, -, -, -, -⟩ := endBody_done_spec hb
    rw [storeC_end_eq] at hres hfcs hobuf hfout
    dsimp only at hres hfcs hobuf hfout
    rw [hop, hos] at hres hfcs hobuf hfout
    simp only [Nat.sub_zero, Nat.zero_add, List.take_zero, List.nil_append]
      at hres hfcs hobuf hfout
    refine ⟨s1, r, rfl, ?_, ?_, ?_, ?_, ?_⟩
    · rw [hfout, ffwrite_good _ _ _ hg, List.take_take, Nat.min_self, take_min_eq]
    · rw [hobuf]
    · rw [hobuf]
    · rw [hfcs]
      dsimp only [storePending]
      exact drop_min_eq _ _
    · rw [hres, drop_min_eq]
      simp only [List.length_drop]
      split <;> omega

/-- Round-trip stage 2: the finalization loop with the store codec flushes
the whole pending container into the sink and exits with status 0. -/
theorem storeC_end :
    ∀ n (s : CompressState StoreCState),
      s.out_buf.pos = 0 → s.out_buf.size = 4096 → s.fout.good = true →
      (storePending s.fcs).length ≤ n →
      ∃ s2, endLoop storeCStream (n + 1) s = some (.ok s2 0) ∧
        s2.fout = ⟨s.fout.data ++ storePending s.fcs, true⟩ := by
  intro n
  induction n with
  | zero =>
    intro s hop hos hg hm
    obtain ⟨s1, r, hb, hfd, hop1, hos1, hpend1, hr⟩ := storeC_end_iter s hop hos hg
    have hple : (storePending s.fcs).length ≤ 4096 := by omega
    have hr0 : r = 0 := hr.mpr hple
    subst hr0
    rw [endLoop, hb]
    dsimp only
    rw [if_neg (by decide)]
    refine ⟨s1, rfl, ?_⟩
    rw [hfd, List.take_of_length_le hple]
  | succ n ih =>
    intro s hop hos hg hm
    obtain ⟨s1, r, hb, hfd, hop1, hos1, hpend1, hr⟩ := storeC_end_iter s hop hos hg
    by_cases hple : (storePending s.fcs).length ≤ 4096
    · have hr0 : r = 0 := hr.mpr hple
      subst hr0
      rw [endLoop, hb]
      dsimp only
      rw [if_neg (by decide)]
      refine ⟨s1, rfl, ?_⟩
      rw [hfd, List.take_of_length_le hple]
    · have hr1 : r ≠ 0 := fun h0 => hple (hr.mp h0)
      rw [endLoop, hb]
      dsimp only
      rw [if_pos hr1]
      have hg1 : s1.fout.good = true := by rw [hfd]
      obtain ⟨s2, hrun, hfd2⟩ := ih s1 hop1 hos1 hg1
        (by rw [hpend1]; simp only [List.length_drop]; omega)
      refine ⟨s2, hrun, ?_⟩
      rw [hfd2, hpend1, hfd]
      dsimp only
      rw [List.append_assoc, List.take_append_drop]

/-- The store codec's feed call in its payload-copying state, in closed
form. -/
theorem storeD_feed_some (n r : Nat) (ob : FL2_outBuffer) (ib : FL2_inBuffer) :
    storeDStream.decompressStream ⟨some n, some r⟩ ob ib =
      (⟨some n, some (r - min (min ib.avail.length (ob.size - ob.pos)) r)⟩,
       { ob with
           dst := ob.dst.take ob.pos ++
             ib.avail.take (min (min ib.avail.length (ob.size - ob.pos)) r),
           pos := ob.pos + min (min ib.avail.length (ob.size - ob.pos)) r },
       { ib with pos := ib.pos + min (min ib.avail.length (ob.size - ob.pos)) r },
       if r - min (min ib.avail.length (ob.size - ob.pos)) r = 0 then 0 else 1) := rfl

/-- The store codec's feed call in its header-reading state, in closed form,
when the unread input is nonempty. -/
theorem storeD_feed_hdr (ob : FL2_outBuffer) (ib : FL2_inBuffer) (n : Nat)
    (body : List Nat) (ha : ib.avail = n :: body) :
    storeDStream.decompressStream ⟨none, none⟩ ob ib =
      (⟨some n, some (n - min (min body.length (ob.size - ob.pos)) n)⟩,
       { ob with
           dst := ob.dst.take ob.pos ++
             body.take (min (min body.length (ob.size - ob.pos)) n),
           pos := ob.pos + min (min body.length (ob.size - ob.pos)) n },
       { ib with pos := ib.pos + 1 + min (min body.length (ob.size - ob.pos)) n },
       if n - min (min body.length (ob.size - ob.pos)) n = 0 then 0 else 1) := by
  have h : storeDStream.decompressStream ⟨none, none⟩ ob ib =
      (match ib.avail with
       | [] => ((⟨none, none⟩ : StoreDState), ob, ib, 1)
       | n :: body =>
         (⟨some n, some (n - min (min body.length (ob.size - ob.pos)) n)⟩,
          { ob with
              dst := ob.dst.take ob.pos ++
                body.take (min (min body.length (ob.size - ob.pos)) n),
              pos := ob.pos + min (min body.length (ob.size - ob.pos)) n },
          { ib with pos := ib.pos + 1 + min (min body.length (ob.size - ob.pos)) n },
          if n - min (min body.length (ob.size - ob.pos)) n = 0 then 0 else 1)) := rfl
  rw [h, ha]

/-- One decompression-loop body with the store codec during the copy stage:
the next (at most 4096-byte) source chunk is appended to the sink, and the
call returns 0 exactly when the remaining payload fit. -/
theorem storeD_copy_iter (s : DecompressState StoreDState) (n : Nat)
    (hpe : s.in_buf.pos = s.in_buf.size) (hop : s.out_buf.pos = 0)
    (hos : s.out_buf.size = 8192) (hg : s.fout.good = true)
    (hst : s.fds = ⟨some n, some s.fin.data.length⟩) :
    ∃ s1 r, decompressBody storeDStream s = .done s1 r ∧
      s1.fout = ⟨s.fout.data ++ s.fin.data.take 4096, true⟩ ∧
      s1.fin.data = s.fin.data.drop 4096 ∧
      s1.fds = ⟨some n, some s1.fin.data.length⟩ ∧
      s1.in_buf.pos = s1.in_buf.size ∧
      s1.in_buf.size = min 4096 s.fin.data.length ∧
      s1.out_buf.pos = 0 ∧ s1.out_buf.size = 8192 ∧
      (r = 0 ↔ s.fin.data.length ≤ 4096) := by
  have href := (refillD_spec s).1 hpe
  have hfds' : (refillD s).fds = ⟨some n, some s.fin.data.length⟩ := by
    rw [href]
    exact hst
  have hob' : (refillD s).out_buf = s.out_buf := by rw [href]
  have hfout' : (refillD s).fout = s.fout := by rw [href]
  have hfin' : (refillD s).fin = ⟨s.fin.data.drop 4096⟩ := by rw [href]
  have hav : (refillD s).in_buf.avail = s.fin.data.take 4096 := by
    rw [href]
    exact avail_full _
  have hsz' : (refillD s).in_buf.size = min 4096 s.fin.data.length := by
    rw [href]
    dsimp only
    exact List.length_take _ _
  have hk : min (min (min 4096 s.fin.data.length) (8192 - 0)) s.fin.data.length
      = min 4096 s.fin.data.length := by omega
  cases hb : decompressBody storeDStream s with
  | fail s1 r =>
    obtain ⟨herr, hres, -, -, -, -, -⟩ := decompressBody_fail_spec hb
    have hne : FL2_isError r = false := by
      rw [hres, hfds', hob', storeD_feed_some]
      dsimp only
      split <;> decide
    rw [hne] at herr
    simp at herr
  | done s1 r =>
    obtain ⟨-, hres, hfds1, hib, hobuf, hfout, -, -, hfin1, -⟩ :=
      decompressBody_done_spec hb
    rw [hfds', hob', storeD_feed_some] at hres hfds1 hib hobuf hfout
    dsimp only at hres hfds1 hib hobuf hfout
    rw [hav, hop, hos] at hres hfds1 hib hobuf hfout
    rw [hfout'] at hfout
    rw [hfin'] at hfin1
    simp only [List.length_take, Nat.sub_zero, Nat.zero_add, List.take_zero,
      List.nil_append] at hres hfds1 hib hobuf hfout
    rw [hk] at hres hfds1 hib hobuf hfout
    have hfind : s1.fin.data = s.fin.data.drop 4096 := by rw [hfin1]
    refine ⟨s1, r, rfl, ?_, hfind, ?_, ?_, ?_, ?_, ?_, ?_⟩
    · rw [hfout, ffwrite_good _ _ _ hg, List.take_take, Nat.min_self,
        List.take_take, Nat.min_eq_left (Nat.min_le_left 4096 s.fin.data.length),
        take_min_eq]
    · rw [hfds1, hfind, List.length_drop]
      have he : s.fin.data.length - min 4096 s.fin.data.length
          = s.fin.data.length - 4096 := by omega
      rw [he]
    · rw [hib]
      dsimp only
      have hrp : (refillD s).in_buf.pos = 0 := by rw [href]
      rw [hrp, hsz', Nat.zero_add]
    · rw [hib]
      dsimp only
      exact hsz'
    · rw [hobuf]
    · rw [hobuf]
    · rw [hres]
      split <;> omega

/-- Round-trip stage 3b: the decompression loop with the store codec in its
copy stage appends the whole remaining payload to the sink and exits with
status 0. -/
theorem storeD_copy :
    ∀ m (s : DecompressState StoreDState) (n : Nat),
      s.in_buf.pos = s.in_buf.size → s.out_buf.pos = 0 → s.out_buf.size = 8192 →
      s.fout.good = true → s.fds = ⟨some n, some s.fin.data.length⟩ →
      s.fin.data.length ≤ m →
      ∃ d, decompressLoop storeDStream (m + 1) s = some (.ok d 0) ∧
        d.fout = ⟨s.fout.data ++ s.fin.data, true⟩ := by
  intro m
  induction m with
  | zero =>
    intro s n hpe hop hos hg hst hm
    obtain ⟨s1, r, hb, hfd, hfin1, hfds1, hpe1, hsz1, hop1, hos1, hr⟩ :=
      storeD_copy_iter s n hpe hop hos hg hst
    have hple : s.fin.data.length ≤ 4096 := by omega
    have hr0 : r = 0 := hr.mpr hple
    subst hr0
    rw [decompressLoop, hb]
    dsimp only
    rw [if_neg (by simp)]
    refine ⟨s1, rfl, ?_⟩
    rw [hfd, List.take_of_length_le hple]
  | succ m ih =>
    intro s n hpe hop hos hg hst hm
    obtain ⟨s1, r, hb, hfd, hfin1, hfds1, hpe1, hsz1, hop1, hos1, hr⟩ :=
      storeD_copy_iter s n hpe hop hos hg hst
    by_cases hple : s.fin.data.length ≤ 4096
    · have hr0 : r = 0 := hr.mpr hple
      subst hr0
      rw [decompressLoop, hb]
      dsimp only
      rw [if_neg (by simp)]
      refine ⟨s1, rfl, ?_⟩
      rw [hfd, List.take_of_length_le hple]
    · have hr1 : r ≠ 0 := fun h0 => hple (hr.mp h0)
      have hsznz : s1.in_buf.size ≠ 0 := by rw [hsz1]; omega
      rw [decompressLoop, hb]
      dsimp only
      rw [if_pos ⟨hr1, hsznz⟩]
      have hg1 : s1.fout.good = true := by rw [hfd]
      obtain ⟨d, hrun, hfd2⟩ := ih s1 n hpe1 hop1 hos1 hg1 hfds1
        (by rw [hfin1]; simp only [List.length_drop]; omega)
      refine ⟨d, hrun, ?_⟩
      rw [hfd2, hfin1, hfd]
      dsimp only
      rw [List.append_assoc, List.take_append_drop]

/-- Round-trip stage 3a: the first decompression-loop body with the store
codec reads the length header and copies the first (at most 4095-byte)
payload chunk to the sink. -/
theorem storeD_hdr_iter (s : DecompressState StoreDState) (S : List Nat)
    (hpe : s.in_buf.pos = s.in_buf.size) (hop : s.out_buf.pos = 0)
    (hos : s.out_buf.size = 8192) (hg : s.fout.good = true)
    (hst : s.fds = ⟨none, none⟩) (hdata : s.fin.data = S.length :: S) :
    ∃ s1 r, decompressBody storeDStream s = .done s1 r ∧
      s1.fout = ⟨s.fout.data ++ S.take 4095, true⟩ ∧
      s1.fin.data = S.drop 4095 ∧
      s1.fds = ⟨some S.length, some s1.fin.data.length⟩ ∧
      s1.in_buf.pos = s1.in_buf.size ∧
      s1.in_buf.size = min 4096 (S.length + 1) ∧
      s1.out_buf.pos = 0 ∧ s1.out_buf.size = 8192 ∧
      (r = 0 ↔ S.length ≤ 4095) := by
  have href := (refillD_spec s).1 hpe
  have hfds' : (refillD s).fds = (⟨none, none⟩ : StoreDState) := by
    rw [href]
    exact hst
  have hob' : (refillD s).out_buf = s.out_buf := by rw [href]
  have hfout' : (refillD s).fout = s.fout := by rw [href]
  have hrp : (refillD s).in_buf.pos = 0 := by rw [href]
  have hav : (refillD s).in_buf.avail = S.length :: S.take 4095 := by
    rw [href]
    dsimp only
    rw [avail_full, hdata, show (4096 : Nat) = 4095 + 1 from rfl,
      List.take_succ_cons]
  have hfin2 : (refillD s).fin.data = S.drop 4095 := by
    rw [href]
    dsimp only
    rw [hdata, show (4096 : Nat) = 4095 + 1 from rfl, List.drop_succ_cons]
  have hsz' : (refillD s).in_buf.size = min 4096 (S.length + 1) := by
    rw [href]
    dsimp only
    rw [List.length_take, hdata, List.length_cons]
  have hk : min (min (min 4095 S.length) (8192 - 0)) S.length
      = min 4095 S.length := by omega
  cases hb : decompressBody storeDStream s with
  | fail s1 r =>
    obtain ⟨herr, hres, -, -, -, -, -⟩ := decompressBody_fail_spec hb
    have hne : FL2_isError r = false := by
      rw [hres, hfds', storeD_feed_hdr _ _ _ _ hav]
      dsimp only
      split <;> decide
    rw [hne] at herr
    simp at herr
  | done s1 r =>
    obtain ⟨-, hres, hfds1, hib, hobuf, hfout, -, -, hfin1, -⟩ :=
      decompressBody_done_spec hb
    rw [hfds', storeD_feed_hdr _ _ _ _ hav] at hres hfds1 hib hobuf hfout
    dsimp only at hres hfds1 hib hobuf hfout
    rw [hob', hop, hos] at hres hfds1 hib hobuf hfout
    rw [hrp] at hib
    rw [hfout'] at hfout
    simp only [List.length_take, Nat.sub_zero, Nat.zero_add, List.take_zero,
      List.nil_append] at hres hfds1 hib hobuf hfout
    rw [hk] at hres hfds1 hib hobuf hfout
    have hfind : s1.fin.data = S.drop 4095 := by rw [hfin1, hfin2]
    refine ⟨s1, r, rfl, ?_, hfind, ?_, ?_, ?_, ?_, ?_, ?_⟩
    · rw [hfout, ffwrite_good _ _ _ hg, List.take_take, Nat.min_self,
        List.take_take, Nat.min_eq_left (Nat.min_le_left 4095 S.length),
        take_min_eq]
    · rw [hfds1, hfind, List.length_drop]
      have he : S.length - min 4095 S.length = S.length - 4095 := by omega
      rw [he]
    · rw [hib]
      dsimp only
      rw [hsz']
      omega
    · rw [hib]
      dsimp only
      exact hsz'
    · rw [hobuf]
    · rw [hobuf]
    · rw [hres]
      split <;> omega

/-- Round-trip stage 3: decompressing a store-codec container writes exactly
the original payload to the sink and returns 0. -/
theorem storeD_run (S : List Nat) :
    ∃ g d, decompress_file storeDStream ⟨none, none⟩ ⟨S.length :: S⟩ ⟨[], true⟩ g
        = some d ∧ d.ret = 0 ∧ d.final.fout.data = S := by
  obtain ⟨s1, r, hb, hfd, hfin1, hfds1, hpe1, hsz1, hop1, hos1, hr⟩ :=
    storeD_hdr_iter
      (initialDecompressState ⟨none, none⟩ ⟨S.length :: S⟩ ⟨[], true⟩) S
      rfl rfl rfl rfl rfl rfl
  have hfd' : s1.fout = ⟨S.take 4095, true⟩ := by rw [hfd]; rfl
  by_cases hS : S.length ≤ 4095
  · have hr0 : r = 0 := hr.mpr hS
    subst hr0
    refine ⟨1, ⟨s1, 0, none⟩, ?_, rfl, ?_⟩
    · unfold decompress_file
      rw [show (1 : Nat) = 0 + 1 from rfl, decompressLoop, hb]
      dsimp only
      rw [if_neg (by simp)]
    · show s1.fout.data = S
      rw [hfd']
      dsimp only
      exact List.take_of_length_le hS
  · have hr1 : r ≠ 0 := fun h0 => hS (hr.mp h0)
    have hsznz : s1.in_buf.size ≠ 0 := by rw [hsz1]; omega
    have hg1 : s1.fout.good = true := by rw [hfd']
    obtain ⟨d, hrun, hfd2⟩ := storeD_copy (S.length - 4095) s1 S.length
      hpe1 hop1 hos1 hg1 hfds1
      (by rw [hfin1]; simp only [List.length_drop]; omega)
    refine ⟨(S.length - 4095) + 2, ⟨d, 0, none⟩, ?_, rfl, ?_⟩
    · unfold decompress_file
      rw [show (S.length - 4095) + 2 = ((S.length - 4095) + 1) + 1 from rfl,
        decompressLoop, hb]
      dsimp only
      rw [if_pos ⟨hr1, hsznz⟩, hrun]
    · show d.fout.data = S
      rw [hfd2, hfin1, hfd']
      dsimp only
      exact List.take_append_drop 4095 S

/-- Claim C1 (amended): with the modelled store codec engine pair, the full
compress-then-decompress pipeline reproduces every source byte sequence
exactly: compression succeeds, decompressing the container it wrote
succeeds, and the final sink holds exactly the original bytes. -/
theorem claim_C1 :
    ∀ S : List Nat, RoundTrips storeCStream ⟨[], none⟩ storeDStream ⟨none, none⟩ S := by
  intro S
  obtain ⟨s1, hloop, hfcs, hfout1, hfin1, hout1⟩ :=
    storeC_main S.length (initialCompressState ⟨[], none⟩ ⟨S⟩ ⟨[], true⟩)
      rfl rfl rfl (Nat.le_refl _)
  have hfcs' : s1.fcs = ⟨S, none⟩ := by rw [hfcs]; rfl
  have hfg : s1.fout.good = true := by rw [hfout1]; rfl
  have hop1 : s1.out_buf.pos = 0 := by rw [hout1]; rfl
  have hos1 : s1.out_buf.size = 4096 := by rw [hout1]; rfl
  have hpl : (storePending s1.fcs).length ≤ S.length + 1 := by
    rw [hfcs']
    dsimp only [storePending]
    rw [List.length_cons]
  obtain ⟨s2, hend, hfd2⟩ := storeC_end (S.length + 1) s1 hop1 hos1 hfg hpl
  have hs2 : s2.fout = ⟨S.length :: S, true⟩ := by rw [hfd2, hfcs', hfout1]; rfl
  have hcomp : compress_file storeCStream ⟨[], none⟩ ⟨S⟩ ⟨[], true⟩
      (S.length + 1) (S.length + 2) = some ⟨s2, 0, none⟩ := by
    unfold compress_file
    rw [hloop]
    dsimp only
    rw [show S.length + 2 = S.length + 1 + 1 from rfl, hend]
  obtain ⟨g, d, hdec, hdret, hdS⟩ := storeD_run S
  refine ⟨S.length + 1, S.length + 2, g, ⟨s2, 0, none⟩, d, hcomp, rfl, ?_, hdret, hdS⟩
  have hfinal : (⟨s2, 0, none⟩ : RunOutcome (CompressState StoreCState)).final.fout.data
      = S.length :: S := by
    show s2.fout.data = S.length :: S
    rw [hs2]
  rw [hfinal]
  exact hdec

/-- Folding the run-length encoder over a block of repeats of the open run's
value just extends the run's count. -/
theorem rleStep_run :
    ∀ (m v c : Nat) (enc : List Nat),
      (List.replicate m v).foldl rleStep (some (v, c), enc) = (some (v, c + m), enc) := by
  intro m
  induction m with
  | zero =>
    intro v c enc
    simp
  | succ m ih =>
    intro v c enc
    rw [List.replicate_succ, List.foldl_cons]
    have hs : rleStep (some (v, c), enc) v = (some (v, c + 1), enc) := by
      simp [rleStep]
    rw [hs, ih]
    have ha : c + 1 + m = c + (m + 1) := by omega
    rw [ha]

/-- The run-length codec's feed call, in closed form. -/
theorem rleC_feed_eq (a : RleCState) (b : FL2_outBuffer) (c : FL2_inBuffer) :
    rleCStream.compressStream a b c =
      (⟨(c.avail.foldl rleStep (a.run, a.encoded)).1,
        (c.avail.foldl rleStep (a.run, a.encoded)).2, a.pending⟩,
       b, { c with pos := c.size }, 0) := rfl

/-- The run-length codec's finalization call, in closed form. -/
theorem rleC_end_eq (a : RleCState) (b : FL2_outBuffer) :
    rleCStream.endStream a b =
      (⟨a.run, a.encoded, some ((rlePending a).drop
          (min (b.size - b.pos) (rlePending a).length))⟩,
       { b with
           dst := b.dst.take b.pos ++ (rlePending a).take
             (min (b.size - b.pos) (rlePending a).length),
           pos := b.pos + min (b.size - b.pos) (rlePending a).length },
       if ((rlePending a).drop (min (b.size - b.pos) (rlePending a).length)).length = 0
       then 0 else 1) := rfl

/-- The compression main loop with the run-length codec on an all-zero
source: the open zero run absorbs the whole source, nothing reaches the
sink, and the loop exits normally with the input drained. -/
theorem rleC_main :
    ∀ n (s : CompressState RleCState) (c m : Nat),
      s.in_buf.pos = s.in_buf.size → s.out_buf.pos = 0 →
      s.fcs = ⟨some (0, c), [], none⟩ → s.fin.data = List.replicate m 0 → m ≤ n →
      ∃ s1, compressLoop rleCStream (n + 1) s = some (.ok s1 0) ∧
        s1.fcs = ⟨some (0, c + m), [], none⟩ ∧ s1.fout = s.fout ∧
        s1.out_buf = s.out_buf := by
  intro n
  induction n with
  | zero =>
    intro s c m hpe hop hst hd hm
    have hm0 : m = 0 := by omega
    rw [compressLoop]
    cases hb : compressBody rleCStream s with
    | fail s1 r =>
      obtain ⟨herr, hres, -⟩ := compressBody_fail_spec hb
      rw [rleC_feed_eq] at hres
      dsimp only at hres
      rw [hres] at herr
      exact absurd herr (by decide)
    | done s1 r =>
      dsimp only
      obtain ⟨-, hres, hfcs, hib, hobuf, hfout, -, -, hfin1, -⟩ :=
        compressBody_done_spec hb
      have href := (refillC_spec s).1 hpe
      rw [rleC_feed_eq] at hres hfcs hib hobuf hfout
      dsimp only at hres hfcs hib hobuf hfout
      subst hres
      have hsz1 : s1.in_buf.size = min 8192 m := by
        rw [hib, href]
        dsimp only
        rw [hd, List.take_replicate, List.length_replicate]
      have hsz0 : s1.in_buf.size = 0 := by omega
      rw [if_neg (by omega)]
      have hout1 : s1.out_buf = s.out_buf := by
        rw [hobuf, href]
        dsimp only
        cases hb2 : s.out_buf with
        | mk dd ss pp =>
          rw [hb2] at hop
          dsimp only at hop
          rw [hop]
      have hfout1 : s1.fout = s.fout := by
        rw [hfout, href]
        dsimp only
        unfold ffwrite
        dsimp only
        cases hf : s.fout with
        | mk d g => cases g <;> simp [hop]
      have hfcs1 : s1.fcs = ⟨some (0, c + min 8192 m), [], none⟩ := by
        rw [hfcs, href]
        dsimp only
        rw [hst]
        dsimp only
        rw [avail_full, hd, List.take_replicate, rleStep_run]
      refine ⟨s1, rfl, ?_, hfout1, hout1⟩
      rw [hfcs1]
      have ha : c + min 8192 m = c + m := by omega
      rw [ha]
  | succ n ih =>
    intro s c m hpe hop hst hd hm
    rw [compressLoop]
    cases hb : compressBody rleCStream s with
    | fail s1 r =>
      obtain ⟨herr, hres, -⟩ := compressBody_fail_spec hb
      rw [rleC_feed_eq] at hres
      dsimp only at hres
      rw [hres] at herr
      exact absurd herr (by decide)
    | done s1 r =>
      dsimp only
      obtain ⟨-, hres, hfcs, hib, hobuf, hfout, -, -, hfin1, -⟩ :=
        compressBody_done_spec hb
      have href := (refillC_spec s).1 hpe
      rw [rleC_feed_eq] at hres hfcs hib hobuf hfout
      dsimp only at hres hfcs hib hobuf hfout
      subst hres
      have hsz1 : s1.in_buf.size = min 8192 m := by
        rw [hib, href]
        dsimp only
        rw [hd, List.take_replicate, List.length_replicate]
      have hout1 : s1.out_buf = s.out_buf := by
        rw [hobuf, href]
        dsimp only
        cases hb2 : s.out_buf with
        | mk dd ss pp =>
          rw [hb2] at hop
          dsimp only at hop
          rw [hop]
      have hfout1 : s1.fout = s.fout := by
        rw [hfout, href]
        dsimp only
        unfold ffwrite
        dsimp only
        cases hf : s.fout with
        | mk d g => cases g <;> simp [hop]
      have hfcs1 : s1.fcs = ⟨some (0, c + min 8192 m), [], none⟩ := by
        rw [hfcs, href]
        dsimp only
        rw [hst]
        dsimp only
        rw [avail_full, hd, List.take_replicate, rleStep_run]
      rcases Nat.eq_zero_or_pos m with hm0 | hm0
      · have hsz0 : s1.in_buf.size = 0 := by omega
        rw [if_neg (by omega)]
        refine ⟨s1, rfl, ?_, hfout1, hout1⟩
        rw [hfcs1]
        have ha : c + min 8192 m = c + m := by omega
        rw [ha]
      · have hsznz : s1.in_buf.size ≠ 0 := by omega
        rw [if_pos hsznz]
        have hpe1 : s1.in_buf.pos = s1.in_buf.size := by rw [hib]
        have hop1 : s1.out_buf.pos = 0 := by rw [hout1]; exact hop
        have hfin2 : s1.fin.data = List.replicate (m - 8192) 0 := by
          rw [hfin1, href]
          dsimp only
          rw [hd, List.drop_replicate]
        obtain ⟨s2, hrun, hfcs2, hfout2, hout2⟩ :=
          ih s1 (c + min 8192 m) (m - 8192) hpe1 hop1 hfcs1 hfin2 (by omega)
        refine ⟨s2, hrun, ?_, by rw [hfout2, hfout1], by rw [hout2, hout1]⟩
        rw [hfcs2]
        have ha : c + min 8192 m + (m - 8192) = c + m := by omega
        rw [ha]

/-- Folding the run-length encoder over a nonempty block of repeats from an
empty accumulator opens a run holding the whole block. -/
theorem rleStep_run0 (k v : Nat) (hk : 0 < k) :
    (List.replicate k v).foldl rleStep (none, []) = (some (v, k), []) := by
  cases k with
  | zero => omega
  | succ k =>
    rw [List.replicate_succ, List.foldl_cons]
    have h1 : rleStep (none, ([] : List Nat)) v = (some (v, 1), []) := by
      simp [rleStep]
    rw [h1, rleStep_run]
    have ha : 1 + k = k + 1 := by omega
    rw [ha]

/-- The compression main loop with the run-length codec on a nonempty
all-zero source, started from the fresh engine state. -/
theorem rleC_start (s : CompressState RleCState) (m : Nat)
    (hpe : s.in_buf.pos = s.in_buf.size) (hop : s.out_buf.pos = 0)
    (hst : s.fcs = ⟨none, [], none⟩) (hd : s.fin.data = List.replicate m 0)
    (hm : 0 < m) :
    ∃ s1, compressLoop rleCStream (m + 2) s = some (.ok s1 0) ∧
      s1.fcs = ⟨some (0, m), [], none⟩ ∧ s1.fout = s.fout ∧
      s1.out_buf = s.out_buf := by
  rw [show m + 2 = (m + 1) + 1 from rfl, compressLoop]
  cases hb : compressBody rleCStream s with
  | fail s1 r =>
    obtain ⟨herr, hres, -⟩ := compressBody_fail_spec hb
    rw [rleC_feed_eq] at hres
    dsimp only at hres
    rw [hres] at herr
    exact absurd herr (by decide)
  | done s1 r =>
    dsimp only
    obtain ⟨-, hres, hfcs, hib, hobuf, hfout, -, -, hfin1, -⟩ :=
      compressBody_done_spec hb
    have href := (refillC_spec s).1 hpe
    rw [rleC_feed_eq] at hres hfcs hib hobuf hfout
    dsimp only at hres hfcs hib hobuf hfout
    subst hres
    have hsz1 : s1.in_buf.size = min 8192 m := by
      rw [hib, href]
      dsimp only
      rw [hd, List.take_replicate, List.length_replicate]
    have hout1 : s1.out_buf = s.out_buf := by
      rw [hobuf, href]
      dsimp only
      cases hb2 : s.out_buf with
      | mk dd ss pp =>
        rw [hb2] at hop
        dsimp only at hop
        rw [hop]
    have hfout1 : s1.fout = s.fout := by
      rw [hfout, href]
      dsimp only
      unfold ffwrite
      dsimp only
      cases hf : s.fout with
      | mk d g => cases g <;> simp [hop]
    have hfcs1 : s1.fcs = ⟨some (0, min 8192 m), [], none⟩ := by
      rw [hfcs, href]
      dsimp only
      rw [hst]
      dsimp only
      rw [avail_full, hd, List.take_replicate, rleStep_run0 _ _ (by omega)]
    have hsznz : s1.in_buf.size ≠ 0 := by omega
    rw [if_pos hsznz]
    have hpe1 : s1.in_buf.pos = s1.in_buf.size := by rw [hib]
    have hop1 : s1.out_buf.pos = 0 := by rw [hout1]; exact hop
    have hfin2 : s1.fin.data = List.replicate (m - 8192) 0 := by
      rw [hfin1, href]
      dsimp only
      rw [hd, List.drop_replicate]
    obtain ⟨s2, hrun, hfcs2, hfout2, hout2⟩ :=
      rleC_main m s1 (min 8192 m) (m - 8192) hpe1 hop1 hfcs1 hfin2 (by omega)
    refine ⟨s2, hrun, ?_, by rw [hfout2, hfout1], by rw [hout2, hout1]⟩
    rw [hfcs2]
    have ha : min 8192 m + (m - 8192) = m := by omega
    rw [ha]

/-- The finalization loop with the run-length codec holding a single open
run of 17000 zeros: one call flushes the two-element container. -/
theorem rleC_finish (s : CompressState RleCState)
    (hop : s.out_buf.pos = 0) (hos : s.out_buf.size = 4096)
    (hg : s.fout.good = true) (hst : s.fcs = ⟨some (0, 17000), [], none⟩) :
    ∃ s2, endLoop rleCStream 1 s = some (.ok s2 0) ∧
      s2.fout = ⟨s.fout.data ++ [17000, 0], true⟩ := by
  rw [show (1 : Nat) = 0 + 1 from rfl, endLoop]
  cases hb : endBody rleCStream s with
  | fail s1 r =>
    obtain ⟨herr, hres, -, -, -, -, -⟩ := endBody_fail_spec hb
    have hne : FL2_isError r = false := by
      rw [hres, rleC_end_eq]
      dsimp only
      split <;> decide
    rw [hne] at herr
    simp at herr
  | done s1 r =>
    dsimp only
    obtain ⟨-, hres, -, -, -, hfout, -, -, -, -⟩ := endBody_done_spec hb
    rw [rleC_end_eq] at hres hfout
    dsimp only at hres hfout
    rw [hst, hop, hos] at hres hfout
    have hrp : rlePending ⟨some (0, 17000), [], none⟩ = [17000, 0] := rfl
    rw [hrp] at hres hfout
    have hk2 : min (4096 - 0) ([(17000 : Nat), 0].length) = 2 := rfl
    rw [hk2] at hres hfout
    have hr0 : r = 0 := by rw [hres]; rfl
    subst hr0
    rw [if_neg (by decide)]
    refine ⟨s1, rfl, ?_⟩
    rw [hfout, ffwrite_good _ _ _ hg, List.take_zero, List.nil_append]
    have hy : (([(17000 : Nat), 0]).take 2).take (0 + 2) = [17000, 0] := rfl
    rw [hy]

/-- Assembling `compress_file` from successful runs of its two loops. -/
theorem compress_file_ok {σ} (C : FL2_CStream σ) {fcs : σ} {fin fout f1 f2 s1 r1 s2 r2}
    (h1 : compressLoop C f1 (initialCompressState fcs fin fout) = some (.ok s1 r1))
    (h2 : endLoop C f2 s1 = some (.ok s2 r2)) :
    compress_file C fcs fin fout f1 f2 = some ⟨s2, 0, none⟩ := by
  unfold compress_file
  rw [h1]
  dsimp only
  rw [h2]

/-- Assembling `decompress_file` from a successful run of its loop. -/
theorem decompress_file_ok {σ} (D : FL2_DStream σ) {fds : σ} {fin fout f s1 r1}
    (h1 : decompressLoop D f (initialDecompressState fds fin fout) = some (.ok s1 r1)) :
    decompress_file D fds fin fout f = some ⟨s1, 0, none⟩ := by
  unfold decompress_file
  rw [h1]

/-- The canonical compression run with the run-length codec on 17000 zero
bytes: it succeeds and writes exactly the two-element container
`[17000, 0]`. -/
theorem rleC_run :
    ∃ o, compress_file rleCStream ⟨none, [], none⟩ ⟨List.replicate 17000 0⟩ ⟨[], true⟩
        (17000 + 2) 1 = some o ∧ o.ret = 0 ∧ o.final.fout.data = [17000, 0] := by
  obtain ⟨s1, hloop, hfcs1, hfout1, hout1⟩ :=
    rleC_start
      (initialCompressState ⟨none, [], none⟩ ⟨List.replicate 17000 0⟩ ⟨[], true⟩)
      17000 rfl rfl rfl rfl (by omega)
  have hop1 : s1.out_buf.pos = 0 := by rw [hout1]; rfl
  have hos1 : s1.out_buf.size = 4096 := by rw [hout1]; rfl
  have hg1 : s1.fout.good = true := by rw [hfout1]; rfl
  obtain ⟨s2, hend, hfd2⟩ := rleC_finish s1 hop1 hos1 hg1 hfcs1
  refine ⟨⟨s2, 0, none⟩, compress_file_ok rleCStream hloop hend, rfl, ?_⟩
  show s2.fout.data = [17000, 0]
  rw [hfd2, hfout1]
  rfl

/-- The run-length codec's decompression feed call, in closed form. -/
theorem rleD_feed_eq (st : RleDState) (ob : FL2_outBuffer) (ib : FL2_inBuffer) :
    rleDStream.decompressStream st ob ib =
      (⟨(ib.avail.foldl rleParse (st.parse, st.queue)).1,
        (rleEmit (ib.avail.foldl rleParse (st.parse, st.queue)).2
          (ob.size - ob.pos)).2.2⟩,
       { ob with
           dst := ob.dst.take ob.pos ++
             (rleEmit (ib.avail.foldl rleParse (st.parse, st.queue)).2
               (ob.size - ob.pos)).1,
           pos := ob.pos +
             (rleEmit (ib.avail.foldl rleParse (st.parse, st.queue)).2
               (ob.size - ob.pos)).2.1 },
       { ib with pos := ib.size },
       if (ib.avail.foldl rleParse (st.parse, st.queue)).1 = none ∧
           (rleEmit (ib.avail.foldl rleParse (st.parse, st.queue)).2
             (ob.size - ob.pos)).2.2 = []
       then 0 else 1) := rfl

/-- One decompression-loop body with the run-length codec: all offered input
is parsed into the run queue and as much decoded output as fits is appended
to the sink. -/
theorem rleD_iter (s : DecompressState RleDState) (q q' : List (Nat × Nat))
    (em : List Nat) (k : Nat)
    (hpe : s.in_buf.pos = s.in_buf.size) (hop : s.out_buf.pos = 0)
    (hos : s.out_buf.size = 8192) (hg : s.fout.good = true)
    (hparse : (s.fin.data.take 4096).foldl rleParse (s.fds.parse, s.fds.queue)
        = (none, q))
    (hemit : rleEmit q (8192 - 0) = (em, k, q'))
    (hlen : em.length = k) :
    ∃ s1 r, decompressBody rleDStream s = .done s1 r ∧
      s1.fout = ⟨s.fout.data ++ em, true⟩ ∧
      s1.fds = ⟨none, q'⟩ ∧
      s1.fin.data = s.fin.data.drop 4096 ∧
      s1.in_buf.pos = s1.in_buf.size ∧
      s1.in_buf.size = (s.fin.data.take 4096).length ∧
      s1.out_buf.pos = 0 ∧ s1.out_buf.size = 8192 ∧
      (q' = [] → r = 0) ∧ (q' ≠ [] → r = 1) := by
  have href := (refillD_spec s).1 hpe
  have hrfds : (refillD s).fds = s.fds := by rw [href]
  have hob' : (refillD s).out_buf = s.out_buf := by rw [href]
  have hfout' : (refillD s).fout = s.fout := by rw [href]
  have hav : (refillD s).in_buf.avail = s.fin.data.take 4096 := by
    rw [href]
    dsimp only
    rw [avail_full]
  have hsz' : (refillD s).in_buf.size = (s.fin.data.take 4096).length := by
    rw [href]
  have hfin2 : (refillD s).fin.data = s.fin.data.drop 4096 := by rw [href]
  cases hb : decompressBody rleDStream s with
  | fail s1 r =>
    obtain ⟨herr, hres, -, -, -, -, -⟩ := decompressBody_fail_spec hb
    have hne : FL2_isError r = false := by
      rw [hres, rleD_feed_eq]
      dsimp only
      split <;> decide
    rw [hne] at herr
    simp at herr
  | done s1 r =>
    obtain ⟨-, hres, hfds1, hib, hobuf, hfout, -, -, hfin1, -⟩ :=
      decompressBody_done_spec hb
    rw [rleD_feed_eq] at hres hfds1 hib hobuf hfout
    dsimp only at hres hfds1 hib hobuf hfout
    rw [hfout'] at hfout
    rw [hav, hrfds, hparse] at hres hfds1 hobuf hfout
    dsimp only at hres hfds1 hobuf hfout
    rw [hob', hop, hos] at hres hfds1 hobuf hfout
    rw [hemit] at hres hfds1 hobuf hfout
    dsimp only at hres hfds1 hobuf hfout
    refine ⟨s1, r, rfl, ?_, hfds1, ?_, ?_, ?_, ?_, ?_, ?_, ?_⟩
    · rw [hfout, ffwrite_good _ _ _ hg]
      simp only [List.take_zero, List.nil_append, Nat.zero_add]
      rw [← hlen, List.take_length]
    · rw [hfin1]
      exact hfin2
    · rw [hib]
    · rw [hib]
      dsimp only
      exact hsz'
    · rw [hobuf]
    · rw [hobuf]
    · intro hq
      rw [hres, if_pos ⟨rfl, hq⟩]
    · intro hq
      rw [hres, if_neg (fun hc => hq hc.2)]

/-- The canonical decompression run with the run-length codec on the
container `[17000, 0]`: the loop exits when the source is exhausted with
runs still queued, having written only 16384 of the 17000 bytes. -/
theorem rleD_run :
    ∃ s2, decompress_file rleDStream ⟨none, []⟩ ⟨[17000, 0]⟩ ⟨[], true⟩ (1 + 1)
        = some ⟨s2, 0, none⟩ ∧
      s2.fout.data = List.replicate 8192 0 ++ List.replicate 8192 0 := by
  have hlen1 : (List.replicate 8192 (0 : Nat)).length = 8192 := by
    rw [List.length_replicate]
  have hemit1 : rleEmit [((17000 : Nat), 0)] (8192 - 0)
      = (List.replicate 8192 0, 8192, [(8808, 0)]) := by
    rw [show (8192 : Nat) - 0 = 8192 from rfl, rleEmit, if_neg (by decide),
      show (17000 : Nat) - 8192 = 8808 from rfl]
  have hemit2 : rleEmit [((8808 : Nat), 0)] (8192 - 0)
      = (List.replicate 8192 0, 8192, [(616, 0)]) := by
    rw [show (8192 : Nat) - 0 = 8192 from rfl, rleEmit, if_neg (by decide),
      show (8808 : Nat) - 8192 = 616 from rfl]
  obtain ⟨s1, r1, hb1, hfd1, hfds1, hfin1, hpe1, hsz1, hop1, hos1, hr10, hr11⟩ :=
    rleD_iter (initialDecompressState ⟨none, []⟩ ⟨[17000, 0]⟩ ⟨[], true⟩)
      [(17000, 0)] [(8808, 0)] (List.replicate 8192 0) 8192
      rfl rfl rfl rfl rfl hemit1 hlen1
  have hfe : s1.fin.data = [] := by rw [hfin1]; rfl
  have hgs1 : s1.fout.good = true := by rw [hfd1]
  have hparse2 : (s1.fin.data.take 4096).foldl rleParse (s1.fds.parse, s1.fds.queue)
      = (none, [(8808, 0)]) := by
    rw [hfe, hfds1]
    rfl
  obtain ⟨s2, r2, hb2, hfd2, hfds2, hfin2, hpe2, hsz2, hop2, hos2, hr20, hr21⟩ :=
    rleD_iter s1 [(8808, 0)] [(616, 0)] (List.replicate 8192 0) 8192
      hpe1 hop1 hos1 hgs1 hparse2 hemit2 hlen1
  have hr1 : r1 = 1 := hr11 (by decide)
  have hsz1v : s1.in_buf.size = 2 := by rw [hsz1]; rfl
  have hsz2v : s2.in_buf.size = 0 := by rw [hsz2, hfe]; rfl
  have hloop : decompressLoop rleDStream (1 + 1)
      (initialDecompressState ⟨none, []⟩ ⟨[17000, 0]⟩ ⟨[], true⟩)
      = some (.ok s2 r2) := by
    rw [decompressLoop, hb1]
    dsimp only
    rw [if_pos ⟨by omega, by omega⟩]
    rw [show (1 : Nat) = 0 + 1 from rfl, decompressLoop, hb2]
    dsimp only
    rw [if_neg (by omega)]
  refine ⟨s2, decompress_file_ok rleDStream hloop, ?_⟩
  rw [hfd2, hfd1]
  rfl

/-- Claim C1, counterexample to the round trip as stated: for the
(genuinely inverse) modelled run-length codec pair on 17000 zero bytes,
compression succeeds and writes the container `[17000, 0]`, but
`decompress_file`'s loop guard `res && in_buf.size` (line 131) exits once
the source is exhausted even though output is still pending, so the run
reports success after writing only 16384 bytes — the round trip fails. -/
theorem claim_C1_counterexample :
    ¬ RoundTrips rleCStream ⟨none, [], none⟩ rleDStream ⟨none, []⟩
        (List.replicate 17000 0) := by
  intro h
  obtain ⟨f1, f2, g, o, d, hcomp, hret, hdec, hdret, hdS⟩ := h
  obtain ⟨o0, hcomp0, hret0, hdata0⟩ := rleC_run
  have h1 : compress_file rleCStream ⟨none, [], none⟩ ⟨List.replicate 17000 0⟩
      ⟨[], true⟩ (max f1 (17000 + 2)) (max f2 1) = some o :=
    compress_file_mono rleCStream hcomp (Nat.le_max_left _ _) (Nat.le_max_left _ _)
  have h2 : compress_file rleCStream ⟨none, [], none⟩ ⟨List.replicate 17000 0⟩
      ⟨[], true⟩ (max f1 (17000 + 2)) (max f2 1) = some o0 :=
    compress_file_mono rleCStream hcomp0 (Nat.le_max_right _ _) (Nat.le_max_right _ _)
  have ho : o = o0 := by
    have h12 := h1.symm.trans h2
    injection h12
  obtain ⟨s2d, hdec0, hdata2⟩ := rleD_run
  rw [ho, hdata0] at hdec
  have h3 : decompress_file rleDStream ⟨none, []⟩ ⟨[17000, 0]⟩ ⟨[], true⟩
      (max g (1 + 1)) = some d :=
    decompress_file_mono rleDStream hdec (Nat.le_max_left _ _)
  have h4 : decompress_file rleDStream ⟨none, []⟩ ⟨[17000, 0]⟩ ⟨[], true⟩
      (max g (1 + 1)) = some ⟨s2d, 0, none⟩ :=
    decompress_file_mono rleDStream hdec0 (Nat.le_max_right _ _)
  have hd : d = ⟨s2d, 0, none⟩ := by
    have h34 := h3.symm.trans h4
    injection h34
  rw [hd] at hdS
  have hS2 : s2d.fout.data = List.replicate 17000 0 := hdS
  rw [hdata2] at hS2
  have hlen := congrArg List.length hS2
  simp only [List.length_append, List.length_replicate] at hlen
  omega
